import Mathlib

/-!
Verification development for the flask-pydantic-spec repository.

The Python sources under the two packages (flask_pydantic_spec and
flask_pydantic_openapi) are shallowly embedded below.  Python dicts are
modelled as association lists with Python insertion-order semantics,
Python JSON values by the inductive type JValue, pydantic model classes
by the PModel record (name, schema and an abstract validator function),
and exceptions by Except.  External collaborators (json.loads/dumps,
werkzeug parse_converter_args, pydantic validation) are modelled from
their documented behaviour; everything else is translated directly from
the repository source files.
-/

set_option linter.unusedVariables false

/-- JSON-like values as produced by Python's json module: null, booleans,
integers, floats (kept as their source lexeme), strings, arrays and
objects (ordered key/value lists, mirroring Python dict order). -/
inductive JValue
  | null
  | bool (b : Bool)
  | int (n : Int)
  | floatLit (s : String)
  | str (s : String)
  | arr (xs : List JValue)
  | obj (kvs : List (String × JValue))

/-- Python dict insertion: overwriting an existing key keeps its original
position, a fresh key is appended at the end. -/
def dictInsert (d : List (String × JValue)) (k : String) (v : JValue) :
    List (String × JValue) :=
  if (d.lookup k).isSome then
    d.map (fun kv => if kv.1 = k then (k, v) else kv)
  else
    d ++ [(k, v)]

/-- Membership test corresponding to Python's `key in dict`. -/
def dictContains (d : List (String × JValue)) (k : String) : Bool :=
  (d.lookup k).isSome

/-- Python dict.update: insert every entry of the second dict into the
first, in order. -/
def dictUpdate (d₁ d₂ : List (String × JValue)) : List (String × JValue) :=
  d₂.foldl (fun acc kv => dictInsert acc kv.1 kv.2) d₁

/-- Substring test on character lists, modelling Python's `needle in hay`
on strings. -/
def containsSub (needle : List Char) : List Char → Bool
  | [] => needle.isEmpty
  | c :: t => if needle.isPrefixOf (c :: t) then true else containsSub needle t

/-- JSON whitespace characters accepted by json.loads. -/
def isJsonWs (c : Char) : Bool :=
  c = ' ' || c = '\t' || c = '\n' || c = '\r'

def skipWs (cs : List Char) : List Char := cs.dropWhile isJsonWs

/-- Hexadecimal digit characters used in \uXXXX escapes. -/
def hexDigitChar (d : Nat) : Char :=
  "0123456789abcdef".data.getD d '0'

/-- Decimal digit character. -/
def digitChar : Nat → Char
  | 0 => '0' | 1 => '1' | 2 => '2' | 3 => '3' | 4 => '4'
  | 5 => '5' | 6 => '6' | 7 => '7' | 8 => '8' | _ => '9'

/-- Digit accumulation used when reading a decimal numeral. -/
def digitsVal (ds : List Char) : Nat :=
  ds.foldl (fun a c => a * 10 + (c.toNat - 48)) 0

/-- Decimal rendering of a natural number (fuelled; fuel n suffices since
a numeral has at most n digits for n ≥ 1). -/
def natToCharsAux : Nat → Nat → List Char → List Char
  | 0, _, acc => acc
  | f + 1, n, acc =>
    if n = 0 then acc else natToCharsAux f (n / 10) (digitChar (n % 10) :: acc)

def natToChars (n : Nat) : List Char :=
  if n = 0 then ['0'] else natToCharsAux n n []

/-- Decimal rendering of an integer, as json.dumps prints Python ints. -/
def intChars (n : Int) : List Char :=
  if n < 0 then '-' :: natToChars n.natAbs else natToChars n.toNat

/-- String-character escaping performed by json.dumps (ensure_ascii
default): quote, backslash and control characters get two-character
escapes, other non-printable or non-ASCII characters a \uXXXX escape. -/
def escChar (c : Char) : List Char :=
  if c = '"' then ['\\', '"']
  else if c = '\\' then ['\\', '\\']
  else if c = '\n' then ['\\', 'n']
  else if c = '\t' then ['\\', 't']
  else if c = '\r' then ['\\', 'r']
  else if c.toNat = 8 then ['\\', 'b']
  else if c.toNat = 12 then ['\\', 'f']
  else if c.toNat < 32 || 127 ≤ c.toNat then
    ['\\', 'u', hexDigitChar (c.toNat / 4096 % 16), hexDigitChar (c.toNat / 256 % 16),
      hexDigitChar (c.toNat / 16 % 16), hexDigitChar (c.toNat % 16)]
  else [c]

/-- Rendering of a JSON string literal including the surrounding quotes. -/
def strChars (s : String) : List Char :=
  '"' :: (s.data.map escChar).flatten ++ ['"']

/-- Comma-style joining of rendered pieces, as str.join does. -/
def joinSep (sep : List Char) : List (List Char) → List Char
  | [] => []
  | [x] => x
  | x :: xs => x ++ sep ++ joinSep sep xs

mutual

/-- Model of json.dumps with Python's default separators (", " between
items, ": " between a key and its value). -/
def dumpsChars : JValue → List Char
  | .null => 'n' :: 'u' :: 'l' :: 'l' :: []
  | .bool true => 't' :: 'r' :: 'u' :: 'e' :: []
  | .bool false => 'f' :: 'a' :: 'l' :: 's' :: 'e' :: []
  | .int n => intChars n
  | .floatLit s => s.data
  | .str s => strChars s
  | .arr xs => '[' :: joinSep [',', ' '] (dumpsList xs) ++ [']']
  | .obj kvs => '\x7b' :: joinSep [',', ' '] (dumpsFields kvs) ++ ['\x7d']

def dumpsList : List JValue → List (List Char)
  | [] => []
  | v :: r => dumpsChars v :: dumpsList r

def dumpsFields : List (String × JValue) → List (List Char)
  | [] => []
  | (k, v) :: r => (strChars k ++ [':', ' '] ++ dumpsChars v) :: dumpsFields r

end

def dumps (v : JValue) : String := String.mk (dumpsChars v)

/-- Rendered characters of one object field. -/
def fieldChars (kv : String × JValue) : List Char :=
  strChars kv.1 ++ [':', ' '] ++ dumpsChars kv.2

/-- Rendered characters between the braces of a non-empty object. -/
def objInner (kvs : List (String × JValue)) : List Char :=
  joinSep [',', ' '] (kvs.map fieldChars)

/-- Unescaping of a two-character escape sequence (everything except \u). -/
def simpleUnescape (e : Char) : Option Char :=
  if e = '"' then some '"'
  else if e = '\\' then some '\\'
  else if e = '/' then some '/'
  else if e = 'b' then some (Char.ofNat 8)
  else if e = 'f' then some (Char.ofNat 12)
  else if e = 'n' then some '\n'
  else if e = 'r' then some '\r'
  else if e = 't' then some '\t'
  else none

def hexVal (c : Char) : Option Nat :=
  if c.isDigit then some (c.toNat - 48)
  else if 'a' ≤ c ∧ c ≤ 'f' then some (c.toNat - 87)
  else if 'A' ≤ c ∧ c ≤ 'F' then some (c.toNat - 55)
  else none

/-- Decoding of one escape sequence given its marker character and the
following input: either a \uXXXX escape or a two-character escape. -/
def parseEscapeAt (e : Char) (r1 : List Char) : Option (Char × List Char) :=
  if e = 'u' then
    match r1 with
    | a :: b :: c2 :: d :: r2 =>
      match hexVal a, hexVal b, hexVal c2, hexVal d with
      | some ha, some hb, some hc, some hd =>
        some (Char.ofNat (ha * 4096 + hb * 256 + hc * 16 + hd), r2)
      | _, _, _, _ => none
    | _ => none
  else
    match simpleUnescape e with
    | some u => some (u, r1)
    | none => none

/-- Decoding of one escape sequence (input starts after the backslash). -/
def parseEscape : List Char → Option (Char × List Char)
  | [] => none
  | e :: r1 => parseEscapeAt e r1

theorem parseEscape_length {r : List Char} {u : Char} {r2 : List Char}
    (h : parseEscape r = some (u, r2)) : r2.length < r.length := by
  match r with
  | [] => simp [parseEscape] at h
  | e :: r1 =>
    rw [show parseEscape (e :: r1) = parseEscapeAt e r1 from rfl] at h
    unfold parseEscapeAt at h
    by_cases he : e = 'u'
    · rw [if_pos he] at h
      match r1 with
      | [] => exact absurd h (by simp)
      | [a] => exact absurd h (by simp)
      | [a, b] => exact absurd h (by simp)
      | [a, b, c2] => exact absurd h (by simp)
      | a :: b :: c2 :: d :: r3 =>
        have h2 : (match hexVal a, hexVal b, hexVal c2, hexVal d with
            | some ha, some hb, some hc, some hd =>
              some (Char.ofNat (ha * 4096 + hb * 256 + hc * 16 + hd), r3)
            | _, _, _, _ => none) = some (u, r2) := h
        cases hha : hexVal a <;> cases hhb : hexVal b <;> cases hhc : hexVal c2 <;>
          cases hhd : hexVal d <;> rw [hha, hhb, hhc, hhd] at h2 <;> simp at h2
        obtain ⟨-, h3⟩ := h2
        subst h3
        simp
        omega
    · rw [if_neg he] at h
      have h2 : (match simpleUnescape e with
          | some u => some (u, r1)
          | none => none) = some (u, r2) := h
      match hsu : simpleUnescape e with
      | some u2 =>
        rw [hsu] at h2
        simp at h2
        obtain ⟨-, h3⟩ := h2
        subst h3
        simp
      | none =>
        rw [hsu] at h2
        simp at h2

/-- Reading of the remainder of a JSON string literal (after the opening
quote), producing the decoded characters and the input following the
closing quote. -/
def parseStringRestL (cs : List Char) : Option (List Char × List Char) :=
  match cs with
  | [] => none
  | c :: r =>
    if c = '"' then some ([], r)
    else if c = '\\' then
      match hpe : parseEscape r with
      | some (u, r2) => (parseStringRestL r2).map (fun p => (u :: p.1, p.2))
      | none => none
    else if c.toNat < 32 then none
    else (parseStringRestL r).map (fun p => (c :: p.1, p.2))
termination_by cs.length
decreasing_by
  · have := parseEscape_length hpe
    simp
    omega
  · simp

/-- Exponent part of a JSON number ('e'/'E', optional sign, digits). -/
def parseExpPart (cs : List Char) : Option (List Char × List Char) :=
  if cs.headD ' ' = 'e' ∨ cs.headD ' ' = 'E' then
    let e := cs.headD ' '
    let r := cs.tail
    let (sgn, r1) : List Char × List Char :=
      if r.headD ' ' = '+' ∨ r.headD ' ' = '-' then ([r.headD ' '], r.tail) else ([], r)
    let ds := r1.takeWhile Char.isDigit
    if ds.isEmpty then none
    else some (e :: sgn ++ ds, r1.dropWhile Char.isDigit)
  else some ([], cs)

/-- Fraction and exponent tail of a non-integer JSON number; the lexeme is
kept verbatim in a floatLit. -/
def parseFloatTail (neg : Bool) (ds rest : List Char) : Option (JValue × List Char) :=
  let (fracPart, r1) : List Char × List Char :=
    if rest.headD ' ' = '.' then
      ('.' :: rest.tail.takeWhile Char.isDigit, rest.tail.dropWhile Char.isDigit)
    else ([], rest)
  if fracPart = ['.'] then none
  else
    match parseExpPart r1 with
    | some (ep, r2) =>
      some (.floatLit (String.mk ((if neg then ['-'] else []) ++ ds ++ fracPart ++ ep)), r2)
    | none => none

/-- Unsigned part of a JSON number: digits with the no-leading-zero rule,
then an optional fraction and exponent. -/
def parseNumberPos (neg : Bool) (cs1 : List Char) : Option (JValue × List Char) :=
  if (cs1.headD ' ').isDigit = false then none
  else
    let ds := cs1.takeWhile Char.isDigit
    let rest := cs1.dropWhile Char.isDigit
    if 1 < ds.length ∧ ds.headD '0' = '0' then none
    else if rest.headD ' ' = '.' ∨ rest.headD ' ' = 'e' ∨ rest.headD ' ' = 'E' then
      parseFloatTail neg ds rest
    else
      some (.int (if neg then -(digitsVal ds : Int) else (digitsVal ds : Int)), rest)

/-- Reading of a JSON number (optional minus sign, then the unsigned
part). -/
def parseNumber (cs : List Char) : Option (JValue × List Char) :=
  if cs.headD ' ' = '-' then parseNumberPos true cs.tail else parseNumberPos false cs

/-- Parser modes: a value, the fields of an object after its first
character, or the items of an array. -/
inductive PMode
  | value
  | objFields (acc : List (String × JValue))
  | arrItems (acc : List JValue)

/-- Recursive-descent JSON reader modelling json.loads.  The fuel
argument only bounds recursion depth; the fuel chosen by loads is large
enough that it never runs out on a full traversal. -/
def parseP : Nat → PMode → List Char → Option (JValue × List Char)
  | 0, _, _ => none
  | f + 1, .value, cs0 =>
    let cs := skipWs cs0
    match cs with
    | [] => none
    | c :: r =>
      if c = '\x7b' then
        let r1 := skipWs r
        if r1.headD ' ' = '\x7d' then some (.obj [], r1.tail)
        else parseP f (.objFields []) r
      else if c = '[' then
        let r1 := skipWs r
        if r1.headD ' ' = ']' then some (.arr [], r1.tail)
        else parseP f (.arrItems []) r
      else if c = '"' then
        match parseStringRestL r with
        | some (sc, r2) => some (.str (String.mk sc), r2)
        | none => none
      else if c = 't' then
        match r with
        | 'r' :: 'u' :: 'e' :: r2 => some (.bool true, r2)
        | _ => none
      else if c = 'f' then
        match r with
        | 'a' :: 'l' :: 's' :: 'e' :: r2 => some (.bool false, r2)
        | _ => none
      else if c = 'n' then
        match r with
        | 'u' :: 'l' :: 'l' :: r2 => some (.null, r2)
        | _ => none
      else if c = 'N' then
        match r with
        | 'a' :: 'N' :: r2 => some (.floatLit "NaN", r2)
        | _ => none
      else if c = 'I' then
        match r with
        | 'n' :: 'f' :: 'i' :: 'n' :: 'i' :: 't' :: 'y' :: r2 =>
          some (.floatLit "Infinity", r2)
        | _ => none
      else if c = '-' then
        match r with
        | 'I' :: 'n' :: 'f' :: 'i' :: 'n' :: 'i' :: 't' :: 'y' :: r2 =>
          some (.floatLit "-Infinity", r2)
        | _ => parseNumber (c :: r)
      else if c.isDigit then parseNumber (c :: r)
      else none
  | f + 1, .objFields acc, cs0 =>
    let cs := skipWs cs0
    if cs.headD ' ' = '"' then
      match parseStringRestL cs.tail with
      | some (kc, r2) =>
        let r3 := skipWs r2
        if r3.headD ' ' = ':' then
          match parseP f .value r3.tail with
          | some (v, r4) =>
            let r5 := skipWs r4
            if r5.headD ' ' = ',' then
              parseP f (.objFields (acc ++ [(String.mk kc, v)])) r5.tail
            else if r5.headD ' ' = '\x7d' then
              some (.obj (acc ++ [(String.mk kc, v)]), r5.tail)
            else none
          | none => none
        else none
      | none => none
    else none
  | f + 1, .arrItems acc, cs0 =>
    match parseP f .value cs0 with
    | some (v, r) =>
      let r1 := skipWs r
      if r1.headD ' ' = ',' then parseP f (.arrItems (acc ++ [v])) r1.tail
      else if r1.headD ' ' = ']' then some (.arr (acc ++ [v]), r1.tail)
      else none
    | none => none

/-- Model of json.loads: parse one value and require only trailing
whitespace after it, otherwise fail (as the Python function raises). -/
def loads (s : String) : Option JValue :=
  match parseP (s.data.length + 1) .value s.data with
  | some (v, rest) => if skipWs rest = [] then some v else none
  | none => none

/-- Translation of flask_pydantic_spec.utils.parse_multi_dict: each key of
the multi-dict keeps its list of raw strings when it has several values;
a single value is opportunistically JSON-decoded and falls back to the
raw string when decoding fails. -/
def parse_multi_dict (input : List (String × List String)) : List (String × JValue) :=
  input.map (fun kv =>
    match kv.2 with
    | [v] =>
      match loads v with
      | some j => (kv.1, j)
      | none => (kv.1, JValue.str v)
    | vs => (kv.1, JValue.arr (vs.map JValue.str)))

/-- Name characters of the parse_rule regex: converter and variable names
are [a-zA-Z_][a-zA-Z0-9_]*. -/
def isNameStart (c : Char) : Bool := c.isAlpha || c = '_'

def isNameTail (c : Char) : Bool := c.isAlphanum || c = '_'

/-- Greedy read of one regex name ([a-zA-Z_][a-zA-Z0-9_]*). -/
def takeName : List Char → Option (List Char × List Char)
  | [] => none
  | c :: cs =>
    if isNameStart c then some (c :: cs.takeWhile isNameTail, cs.dropWhile isNameTail)
    else none

/-- Continuation after a candidate closing parenthesis of the converter
arguments: the regex requires ':' then the variable name then '>'. -/
def tryCont (rest : List Char) : Option (List Char × List Char) :=
  match rest with
  | ':' :: r1 =>
    match takeName r1 with
    | some (v, '>' :: r2) => some (v, r2)
    | _ => none
  | _ => none

/-- Lazy scan of the converter arguments, mirroring the backtracking of
the non-greedy `.*?` in RE_PARSE_RULE: the shortest argument text whose
closing ')' is followed by ':' variable '>' wins; a ')' whose
continuation fails becomes part of the arguments; '.' does not match a
newline. -/
def scanArgs : List Char → List Char → Option (List Char × List Char × List Char)
  | [], _ => none
  | c :: cs, acc =>
    if c = ')' then
      match tryCont cs with
      | some (v, rest) => some (acc.reverse, v, rest)
      | none => scanArgs cs (c :: acc)
    else if c = '\n' then none
    else scanArgs cs (c :: acc)

/-- Fallback branch of RE_PARSE_RULE with the optional converter group
skipped (regex backtracking): just a variable name then '>'. -/
def matchFallback (static r1 : List Char) :
    Option (List Char × Option (List Char) × Option (List Char) × List Char × List Char) :=
  match takeName r1 with
  | some (v, '>' :: rest) => some (static, none, none, v, rest)
  | _ => none

/-- One anchored match of RE_PARSE_RULE: the static prefix (any characters
other than '<'), then '<', an optional converter with optional
parenthesised arguments followed by ':', then the variable name and '>';
when the converter group cannot complete, the regex backtracks to the
fallback without it.  Returns (static, converter?, args?, variable,
rest); none when the regex does not match at this position. -/
def matchToken (cs : List Char) :
    Option (List Char × Option (List Char) × Option (List Char) × List Char × List Char) :=
  let static := cs.takeWhile (fun c => c ≠ '<')
  match cs.dropWhile (fun c => c ≠ '<') with
  | '<' :: r1 =>
    (match takeName r1 with
     | some (conv, r2) =>
       match r2 with
       | '(' :: r3 =>
         (match scanArgs r3 [] with
          | some (args, v, rest) => some (static, some conv, some args, v, rest)
          | none => none)
       | ':' :: r3 =>
         (match takeName r3 with
          | some (v, '>' :: rest) => some (static, some conv, none, v, rest)
          | _ => matchFallback static r1)
       | _ => matchFallback static r1
     | none => matchFallback static r1)
  | _ => none

/-- Segments yielded by parse_rule: either a literal part (converter None
in the source) or a dynamic (converter, arguments, variable) triple where
a missing converter has been replaced by "default" and empty argument
text by None, exactly as the source loop does. -/
inductive Seg
  | lit (s : String)
  | dyn (converter : String) (args : Option String) (name : String)
deriving DecidableEq, Repr

/-- Dynamic segment built from one regex match, applying the
`converter or "default"` and `args or None` conversions of the source. -/
def dynOf (conv : Option (List Char)) (args : Option (List Char)) (v : List Char) : Seg :=
  .dyn
    (match conv with
     | some c => String.mk c
     | none => "default")
    (match args with
     | some a => if a.isEmpty then none else some (String.mk a)
     | none => none)
    (String.mk v)

/-- Tokenisation loop of parse_rule without the duplicate-name check:
returns the yielded segments and the unmatched remainder.  The fuel only
bounds the number of iterations; each match consumes at least one
character, so fuel (length + 1) never runs out. -/
def scanAux : Nat → List Char → List Seg × List Char
  | 0, cs => ([], cs)
  | f + 1, cs =>
    match matchToken cs with
    | none => ([], cs)
    | some (static, conv, args, v, rest) =>
      ((if static.isEmpty then [] else [Seg.lit (String.mk static)]) ++
        dynOf conv args v :: (scanAux f rest).1, (scanAux f rest).2)

def scanSegs (s : String) : List Seg × List Char :=
  scanAux (s.data.length + 1) s.data

/-- Variable names of the dynamic segments, in order of appearance. -/
def dynVarsOf (segs : List Seg) : List String :=
  segs.filterMap (fun s =>
    match s with
    | .dyn _ _ v => some v
    | .lit _ => none)

def dynVars (s : String) : List String := dynVarsOf (scanSegs s).1

/-- Well-formedness of the trailing remainder: after the loop stops the
remaining text must not contain a stray '<' or '>' (otherwise the source
raises "malformed url rule"). -/
def wellFormedTail (s : String) : Bool :=
  !((scanSegs s).2.contains '<' || (scanSegs s).2.contains '>')

/-- Full segment list produced on success: the matched segments followed
by the trailing remainder as a literal when it is non-empty. -/
def fullSegs (s : String) : List Seg :=
  (scanSegs s).1 ++
    (if (scanSegs s).2.isEmpty then [] else [Seg.lit (String.mk (scanSegs s).2)])

/-- Translation of flask_pydantic_spec.utils.parse_rule, with the
generator materialised into a list (consuming the generator raises the
recorded error, discarding earlier yields).  Duplicate variable names
raise; after a failed match, leftover text containing a bracket raises;
otherwise the leftover is yielded as a final literal. -/
def parseRuleAux : Nat → List Char → List String → Except String (List Seg)
  | 0, cs, _ => .ok []
  | f + 1, cs, used =>
    match matchToken cs with
    | none =>
      if cs.isEmpty then .ok []
      else if cs.contains '<' || cs.contains '>' then
        .error "malformed url rule"
      else .ok [Seg.lit (String.mk cs)]
    | some (static, conv, args, v, rest) =>
      if String.mk v ∈ used then .error "variable name used twice"
      else
        match parseRuleAux f rest (String.mk v :: used) with
        | .ok segs =>
          .ok ((if static.isEmpty then [] else [Seg.lit (String.mk static)]) ++
            dynOf conv args v :: segs)
        | .error e => .error e

def parse_rule (s : String) : Except String (List Seg) :=
  parseRuleAux (s.data.length + 1) s.data []

/-- Splitting of a character list on a separator character. -/
def splitOnChar (sep : Char) : List Char → List (List Char)
  | [] => [[]]
  | c :: r =>
    let t := splitOnChar sep r
    if c = sep then [] :: t
    else
      match t with
      | [] => [[c]]
      | h :: t2 => (c :: h) :: t2

def trimChars (cs : List Char) : List Char :=
  ((cs.dropWhile (fun c => c = ' ')).reverse.dropWhile (fun c => c = ' ')).reverse

/-- Python-literal reading used for converter arguments: decimal integers
become ints, True/False become booleans, quoted text loses its quotes,
anything else stays a string.  Modelled from the spec: this stands in for
werkzeug.routing.parse_converter_args, an external collaborator of the
repository (the host framework's converter-argument grammar). -/
def convLit (cs : List Char) : JValue :=
  if ¬cs.isEmpty ∧ cs.all Char.isDigit then .int (digitsVal cs)
  else if cs = ['T', 'r', 'u', 'e'] then .bool true
  else if cs = ['F', 'a', 'l', 's', 'e'] then .bool false
  else if 2 ≤ cs.length ∧ cs.headD ' ' = '"' ∧ cs.getLastD ' ' = '"' then
    .str (String.mk (cs.drop 1 |>.dropLast))
  else .str (String.mk cs)

/-- Modelled from the spec: werkzeug.routing.parse_converter_args (the
host framework is an external collaborator).  The argument text is split
on commas; a part containing '=' becomes a keyword argument, any other
part a positional one, with values read as Python literals. -/
def parse_converter_args (s : String) : List JValue × List (String × JValue) :=
  (splitOnChar ',' s.data).foldl
    (fun acc part =>
      let part := trimChars part
      if part.contains '=' then
        let name := part.takeWhile (fun c => c ≠ '=')
        let rawv := (part.dropWhile (fun c => c ≠ '=')).tail
        (acc.1, acc.2 ++ [(String.mk (trimChars name), convLit (trimChars rawv))])
      else (acc.1 ++ [convLit part], acc.2))
    ([], [])

/-- Schema fields produced by the int-converter branch of
FlaskBackend.parse_path: the base integer/int32 schema, with maximum
added when a "max" argument is present and minimum when "min" is. -/
def intSchemaFields (kwargs : List (String × JValue)) : List (String × JValue) :=
  [("type", .str "integer"), ("format", .str "int32")] ++
    (match kwargs.lookup "max" with
     | some v => [("maximum", v)]
     | none => []) ++
    (match kwargs.lookup "min" with
     | some v => [("minimum", v)]
     | none => [])

/-- Schema fields produced by the string-converter branch. -/
def stringSchemaFields (kwargs : List (String × JValue)) : List (String × JValue) :=
  [("type", .str "string")] ++
    (match kwargs.lookup "length" with
     | some v => [("length", v)]
     | none => []) ++
    (match kwargs.lookup "maxlength" with
     | some v => [("maxLength", v)]
     | none => []) ++
    (match kwargs.lookup "minlength" with
     | some v => [("minLength", v)]
     | none => [])

/-- Translation of FlaskBackend.parse_path: walk the parse_rule segments,
collect literal parts and "{variable}" substitutions into the OpenAPI
path string, and resolve each converter to a schema fragment; custom
converters are resolved through the given resolver (modelling
_parse_custom_url_converter over the app's converter table) with the
plain-string fallback of the source. -/
def parse_path (customResolver : String → Option JValue) (rule : String) :
    Except String (String × List JValue) := do
  let segs ← parse_rule rule
  let (subs, parameters) := segs.foldl
    (fun (acc : List String × List JValue) seg =>
      match seg with
      | .lit s => (acc.1 ++ [s], acc.2)
      | .dyn converter args name =>
        let (pargs, kwargs) :=
          match args with
          | some a => parse_converter_args a
          | none => ([], [])
        let schema : JValue :=
          if converter = "any" then .obj [("type", .str "string"), ("enum", .arr pargs)]
          else if converter = "int" then .obj (intSchemaFields kwargs)
          else if converter = "float" then
            .obj [("type", .str "number"), ("format", .str "float")]
          else if converter = "uuid" then
            .obj [("type", .str "string"), ("format", .str "uuid")]
          else if converter = "path" then
            .obj [("type", .str "string"), ("format", .str "path")]
          else if converter = "string" then .obj (stringSchemaFields kwargs)
          else if converter = "default" then .obj [("type", .str "string")]
          else (customResolver converter).getD (.obj [("type", .str "string")])
        (acc.1 ++ ["\x7b" ++ name ++ "\x7d"],
          acc.2 ++ [.obj [("name", .str name), ("in", .str "path"),
            ("required", .bool true), ("schema", schema)]]))
    ([], [])
  pure (String.join subs, parameters)

/-- Structured validation-error payload carried by a pydantic
ValidationError (the json.loads(err.json()) list of field path, message
and error kind); pydantic is an external collaborator, so the payload is
kept abstract as a JSON value. -/
structure VErr where
  payload : JValue

/-- Abstraction of a pydantic model class: its __name__, its .schema()
output and its parsing/validation behaviour (load_model_schema returns a
validated instance or raises a ValidationError). -/
structure PModel where
  name : String
  schema : JValue
  validate : JValue → Except VErr JValue

/-- Translation of flask_pydantic_spec.types.Request: an optional body
model plus content type and encoding. -/
structure ReqDesc where
  model : Option PModel := none
  content_type : String := "application/json"
  encoding : String := "binary"

/-- Translation of flask_pydantic_spec.types: a Response descriptor
(validate flag, model-less codes, and code → (model, is_list) bindings)
or a FileResponse. -/
inductive RespD
  | response (validate : Bool) (codes : List String)
      (code_models : List (String × (PModel × Bool)))
  | file (content_type : String)

/-- Translation of Response.has_model / FileResponse.has_model. -/
def RespD.has_model : RespD → Bool
  | .response _ _ code_models => !code_models.isEmpty
  | .file _ => false

/-- Translation of Response.find_model: look up "HTTP_<code>" among the
code models.  FileResponse does not override find_model (it would raise),
but the backend only calls it when has_model is true, which is never the
case for a FileResponse; none models that unreachability. -/
def RespD.find_model : RespD → Nat → Option PModel
  | .response _ _ code_models, code =>
    (code_models.lookup ("HTTP_" ++ toString code)).map (fun rm => rm.1)
  | .file _, _ => none

/-- Translation of Response.validate as read by the backend through
getattr(resp, "validate", False): a FileResponse has no such attribute. -/
def RespD.validateAttr : RespD → Bool
  | .response v _ _ => v
  | .file _ => false

/-- Translation of types._parse_code: accept exactly HTTP_ followed by
three digits and return the digits. -/
def parseHttpCode (s : String) : Option String :=
  match s.data with
  | 'H' :: 'T' :: 'T' :: 'P' :: '_' :: rest =>
    if rest.length = 3 ∧ rest.all Char.isDigit then some (String.mk rest) else none
  | _ => none

/-- Translation of types.DEFAULT_CODE_DESC. -/
def DEFAULT_CODE_DESC : List (String × String) :=
  [("HTTP_100", "Continue"), ("HTTP_101", "Switching Protocols"),
   ("HTTP_200", "OK"), ("HTTP_201", "Created"), ("HTTP_202", "Accepted"),
   ("HTTP_203", "Non-Authoritative Information"), ("HTTP_204", "No Content"),
   ("HTTP_205", "Reset Content"), ("HTTP_206", "Partial Content"),
   ("HTTP_300", "Multiple Choices"), ("HTTP_301", "Moved Permanently"),
   ("HTTP_302", "Found"), ("HTTP_303", "See Other"), ("HTTP_304", "Not Modified"),
   ("HTTP_305", "Use Proxy"), ("HTTP_306", "(Unused)"),
   ("HTTP_307", "Temporary Redirect"), ("HTTP_308", "Permanent Redirect"),
   ("HTTP_400", "Bad Request"), ("HTTP_401", "Unauthorized"),
   ("HTTP_402", "Payment Required"), ("HTTP_403", "Forbidden"),
   ("HTTP_404", "Not Found"), ("HTTP_405", "Method Not Allowed"),
   ("HTTP_406", "Not Acceptable"), ("HTTP_407", "Proxy Authentication Required"),
   ("HTTP_408", "Request Timeout"), ("HTTP_409", "Conflict"), ("HTTP_410", "Gone"),
   ("HTTP_411", "Length Required"), ("HTTP_412", "Precondition Failed"),
   ("HTTP_413", "Request Entity Too Large"), ("HTTP_414", "Request-URI Too Long"),
   ("HTTP_415", "Unsupported Media Type"),
   ("HTTP_416", "Requested Range Not Satisfiable"), ("HTTP_417", "Expectation Failed"),
   ("HTTP_418", "I'm a teapot"), ("HTTP_421", "Misdirected Request"),
   ("HTTP_422", "Unprocessable Entity"), ("HTTP_423", "Locked"),
   ("HTTP_424", "Failed Dependency"), ("HTTP_425", "Too Early"),
   ("HTTP_426", "Upgrade Required"), ("HTTP_428", "Precondition Required"),
   ("HTTP_429", "Too Many Requests"), ("HTTP_431", "Request Header Fields Too Large"),
   ("HTTP_451", "Unavailable For Legal Reasons"),
   ("HTTP_500", "Internal Server Error"), ("HTTP_501", "Not Implemented"),
   ("HTTP_502", "Bad Gateway"), ("HTTP_503", "Service Unavailable"),
   ("HTTP_504", "Gateway Timeout"), ("HTTP_505", "HTTP Version Not Supported"),
   ("HTTP_506", "Variant Also negotiates"), ("HTTP_507", "Insufficient Storage"),
   ("HTTP_508", "Loop Detected"), ("HTTP_511", "Network Authentication Required")]

/-- Description text for a code symbol; the Response constructor asserts
membership in DEFAULT_CODE_DESC, so the default is never consulted for a
descriptor that passed construction. -/
def codeDesc (code : String) : String :=
  (DEFAULT_CODE_DESC.lookup code).getD ""

/-- Translation of Response.get_schema: a $ref to the model's component
schema, wrapped in an array schema for list-typed responses. -/
def RespD.get_schema (m : PModel) (is_list : Bool) : JValue :=
  let ref : JValue := .obj [("$ref", .str ("#/components/schemas/" ++ m.name))]
  if is_list then .obj [("schema", .obj [("type", .str "array"), ("items", ref)])]
  else .obj [("schema", ref)]

/-- Translation of Response.generate_spec / FileResponse.generate_spec. -/
def RespD.generate_spec : RespD → List (String × JValue)
  | .response _ codes code_models =>
    let r1 := codes.foldl
      (fun acc code =>
        match parseHttpCode code with
        | some c => dictInsert acc c (.obj [("description", .str (codeDesc code))])
        | none => acc) []
    code_models.foldl
      (fun acc cm =>
        match parseHttpCode cm.1 with
        | some c =>
          dictInsert acc c (.obj [("description", .str (codeDesc cm.1)),
            ("content", .obj [("application/json", RespD.get_schema cm.2.1 cm.2.2)])])
        | none => acc) r1
  | .file content_type =>
    [("200", .obj [("description", .str "OK"),
       ("content", .obj [(content_type,
         .obj [("schema", .obj [("type", .str "string"), ("format", .str "binary")])])])]),
     ("404", .obj [("description", .str "Not Found")])]

/-- Body argument of the validate decorator: either a Request descriptor
or a bare pydantic model (the decorator stores whichever was passed as
the handler's body attribute). -/
inductive BodyArg
  | desc (d : ReqDesc)
  | model (m : PModel)

/-- Attributes attached to a decorated handler function.  The json field
exists because utils.has_model inspects a "json" attribute; the validate
decorator never sets it. -/
structure FuncMeta where
  query : Option PModel := none
  body : Option BodyArg := none
  headers : Option PModel := none
  cookies : Option PModel := none
  json : Option PModel := none
  resp : Option RespD := none
  tags : Option (List String) := none
  deprecated : Bool := false
  decorator : Option Nat := none

/-- Translation of flask_pydantic_spec.utils.has_model: a function "has a
model" when it has a query, json or headers attribute, or a response
descriptor with at least one model.  Note the body and cookies attributes
are not inspected. -/
def has_model (f : FuncMeta) : Bool :=
  (f.query.isSome || f.json.isSome || f.headers.isSome) ||
    (match f.resp with
     | some r => r.has_model
     | none => false)

/-- Translation of flask_pydantic_spec.utils.parse_resp: the response
fragment of the descriptor, with a Validation Error entry synthesized at
the given code when it is absent and has_model holds. -/
def parse_resp (f : FuncMeta) (code : Nat) : List (String × JValue) :=
  let responses :=
    match f.resp with
    | some r => r.generate_spec
    | none => []
  if ¬dictContains responses (toString code) ∧ has_model f then
    dictInsert responses (toString code) (.obj [("description", .str "Validation Error")])
  else responses

/-- Subset of flask_pydantic_spec.config.Config needed here, with the
source defaults. -/
structure Config where
  PATH : String := "apidoc"
  FILENAME : String := "openapi.json"
  MODE : String := "normal"
  VALIDATION_ERROR_CODE : Nat := 422

/-- Translation of FlaskPydanticSpec.bypass (identical in
FlaskPydanticOpenapi.bypass): instances are identified by opaque ids and
a handler's _decorator attribute by an optional id.  The route is
excluded from the document exactly when bypass returns true. -/
def bypass (cfg : Config) (selfId : Nat) (funcDecorator : Option Nat) : Bool :=
  if cfg.MODE = "greedy" then false
  else if cfg.MODE = "strict" then
    if funcDecorator = some selfId then false else true
  else
    match funcDecorator with
    | some d => if d ≠ selfId then true else false
    | none => false

/-- Suffix of the list after the last occurrence of the pattern, when the
pattern occurs (the [-1] element of a Python str.split). -/
def findLastSuffix (pat : List Char) : List Char → Option (List Char)
  | [] => none
  | c :: t =>
    match findLastSuffix pat t with
    | some r => some r
    | none => if pat.isPrefixOf (c :: t) then some ((c :: t).drop pat.length) else none

/-- Translation of _move_schema_reference (identical in utils.py and both
spec.py variants): rewrite a pydantic-local definitions reference to the
shared components/schemas location. -/
def move_schema_reference (reference : String) : String :=
  if containsSub "/definitions".data reference.data then
    "#/components/schemas/" ++
      String.mk ((findLastSuffix "/definitions/".data reference.data).getD reference.data)
  else reference

mutual

/-- Model of nested_alter(data, "$ref", move_schema_reference) from the
nested_lookup library (an external collaborator): recursively walk the
value and rewrite every string stored under a "$ref" key. -/
def nestedAlterRef : JValue → JValue
  | .obj kvs => .obj (nestedAlterRefFields kvs)
  | .arr xs => .arr (nestedAlterRefList xs)
  | .null => .null
  | .bool b => .bool b
  | .int n => .int n
  | .floatLit s => .floatLit s
  | .str s => .str s

def nestedAlterRefFields : List (String × JValue) → List (String × JValue)
  | [] => []
  | (k, v) :: r =>
    (k,
      if k = "$ref" then
        match v with
        | .str s => .str (move_schema_reference s)
        | w => nestedAlterRef w
      else nestedAlterRef v) :: nestedAlterRefFields r

def nestedAlterRefList : List JValue → List JValue
  | [] => []
  | v :: r => nestedAlterRef v :: nestedAlterRefList r

end

/-- Translation of the allowed_fields set of _validate_property. -/
def allowed_fields : List String :=
  ["title", "multipleOf", "maximum", "exclusiveMaximum", "minimum",
   "exclusiveMinimum", "maxLength", "minLength", "pattern", "maxItems",
   "minItems", "uniqueItems", "maxProperties", "minProperties", "required",
   "enum", "type", "allOf", "anyOf", "oneOf", "not", "items", "properties",
   "additionalProperties", "description", "format", "default", "nullable",
   "discriminator", "readOnly", "writeOnly", "xml", "externalDocs", "example",
   "deprecated", "$ref"]

/-- Translation of FlaskPydanticOpenapi._validate_property: for each
property, keep only the keys on the OpenAPI allow-list.  The source
assumes every property value is a mapping; other values pass through. -/
def validate_property (property : JValue) : JValue :=
  match property with
  | .obj props =>
    .obj (props.map (fun p =>
      (p.1,
        match p.2 with
        | .obj kvs => JValue.obj (kvs.filter (fun kv => allowed_fields.contains kv.1))
        | w => w)))
  | w => w

/-- Translation of FlaskPydanticOpenapi._get_open_api_schema: sanitize the
properties bucket and rewrite definition references everywhere. -/
def get_open_api_schema (schema : JValue) : JValue :=
  match schema with
  | .obj kvs =>
    nestedAlterRef (.obj (kvs.map (fun kv =>
      if kv.1 = "properties" then (kv.1, validate_property kv.2) else kv)))
  | w => nestedAlterRef w

/-- Model registry self.models: model name → sanitized schema. -/
def Registry := List (String × JValue)

/-- Registration of one model into self.models, as the decorator does via
self.models[model.__name__] = self._get_open_api_schema(model.schema()). -/
def registerModel (reg : Registry) (m : PModel) : Registry :=
  dictInsert reg m.name (get_open_api_schema m.schema)

/-- Models referenced by a response descriptor (Response.models). -/
def RespD.models : RespD → List PModel
  | .response _ _ code_models => code_models.map (fun cm => cm.2.1)
  | .file _ => []

/-- Arguments of the validate decorator that matter at decoration time. -/
structure DecArgs where
  query : Option PModel := none
  body : Option BodyArg := none
  headers : Option PModel := none
  cookies : Option PModel := none
  resp : Option RespD := none
  tags : List String := []
  deprecated : Bool := false

/-- Decoration-time effects of FlaskPydanticOpenapi.validate (the
FlaskPydanticSpec.validate registration loop is the same on these
attributes): resolve each slot's underlying model (a body descriptor
contributes its wrapped model, possibly none), register the models, and
attach the slot values, tags, deprecated flag and owner marker to the
wrapped handler.  No branch of the source raises for any argument
combination; in particular nothing checks whether resp is None. -/
def decorateCore (selfId : Nat) (a : DecArgs) (reg0 : Registry) : FuncMeta × Registry :=
  let reg1 :=
    match a.query with
    | some m => registerModel reg0 m
    | none => reg0
  let reg2 :=
    match a.body with
    | some (BodyArg.desc d) =>
      match d.model with
      | some m => registerModel reg1 m
      | none => reg1
    | some (BodyArg.model m) => registerModel reg1 m
    | none => reg1
  let reg3 :=
    match a.headers with
    | some m => registerModel reg2 m
    | none => reg2
  let reg4 :=
    match a.cookies with
    | some m => registerModel reg3 m
    | none => reg3
  let reg5 :=
    match a.resp with
    | some r => r.models.foldl registerModel reg4
    | none => reg4
  ({ query := a.query, body := a.body, headers := a.headers, cookies := a.cookies,
     resp := a.resp,
     tags := if a.tags.isEmpty then none else some a.tags,
     deprecated := a.deprecated,
     decorator := some selfId }, reg5)

/-- The validate decorator as a fallible operation: Python exceptions
raised during decoration would surface on the error side; the translation
shows decoration never raises (the only assert in the registration loops,
that a response model is not a RequestBase, is discharged by typing). -/
def decorate (selfId : Nat) (a : DecArgs) (reg : Registry) :
    Except String (FuncMeta × Registry) :=
  .ok (decorateCore selfId a reg)

/-- Flask response as the backend observes it: status code and (JSON)
body; make_response and jsonify are modelled as the identity on this
record, response.get_json() as the body field. -/
structure FlaskResp where
  status : Nat
  body : JValue

/-- Errors escaping request_validation: a pydantic ValidationError (the
only kind caught by FlaskBackend.validate) or any other exception (a
json.loads failure while reading a gzip body or a JSON file part), which
propagates to the framework. -/
inductive RVErr
  | vErr (e : VErr)
  | exn

/-- Translation of flask_backend.Context. -/
structure Context where
  query : Option JValue := none
  body : Option JValue := none
  headers : Option JValue := none
  cookies : Option JValue := none

/-- Inbound request as the backend reads it through the flask request
object (an external collaborator): the query multi-dict, content type and
encoding headers, the result of request.get_json(silent=True) (none when
the body is absent or not parseable as JSON), the parsed JSON of a
gzip-compressed body (none when json.loads would raise), uploaded file
parts (mimetype and parsed JSON, none when json.loads would raise), the
form multi-dict, the raw body text, and header/cookie mappings. -/
structure RawRequest where
  args : List (String × List String) := []
  contentType : Option String := none
  contentEncoding : Option String := none
  getJsonSilent : Option JValue := none
  gzipJson : Option JValue := none
  files : List (String × (String × Option JValue)) := []
  form : List (String × List String) := []
  getData : Option String := none
  headers : List (String × String) := []
  cookies : List (String × String) := []

/-- Python truthiness test `needle in field` guarded by the field itself
being truthy, as in `request.content_type and "..." in request.content_type`. -/
def ctHas (field : Option String) (needle : String) : Bool :=
  match field with
  | some s => containsSub needle.data s.data
  | none => false

/-- Python truthiness of a decoded JSON value, as consulted by
`request.get_json(silent=True) or {}`. -/
def pyFalsy : JValue → Bool
  | .null => true
  | .bool b => !b
  | .int n => n = 0
  | .floatLit s => (s.data.takeWhile (fun c => c ≠ 'e' ∧ c ≠ 'E')).all
      (fun c => c = '0' ∨ c = '.' ∨ c = '-')
  | .str s => s.isEmpty
  | .arr xs => xs.isEmpty
  | .obj kvs => kvs.isEmpty

/-- The `x or {}` idiom on an optional decoded JSON body. -/
def orEmptyObj (j : Option JValue) : JValue :=
  match j with
  | some v => if pyFalsy v then .obj [] else v
  | none => .obj []

/-- Multipart body assembly of request_validation: JSON-typed file parts
are decoded (json.loads raising escapes as a non-validation exception)
and the JSON-decoded form fields are merged over them. -/
def multipartBody (req : RawRequest) : Except RVErr (List (String × JValue)) := do
  let fileEntries ← req.files.foldlM
    (fun (acc : List (String × JValue)) kv =>
      if kv.2.1 = "application/json" then
        match kv.2.2 with
        | some j => pure (dictInsert acc kv.1 j)
        | none => throw RVErr.exn
      else pure acc) []
  pure (dictUpdate fileEntries (parse_multi_dict req.form))

/-- Translation of FlaskBackend.request_validation: extract the query
dict (empty when request.args is falsy), extract the body according to
content type (JSON with optional gzip, multipart, or raw data with the
`or {}` fallback), then validate the declared slots in the evaluation
order of the Context constructor call (query, body, headers, cookies),
the first pydantic failure escaping as a ValidationError. -/
def request_validation (req : RawRequest) (query : Option PModel)
    (body : Option ReqDesc) (headers cookies : Option PModel) :
    Except RVErr Context := do
  let req_query : JValue :=
    if req.args.isEmpty then .obj [] else .obj (parse_multi_dict req.args)
  let parsed_body : JValue ←
    if ctHas req.contentType "application/json" then
      if ctHas req.contentEncoding "gzip" then
        match req.gzipJson with
        | some j => pure j
        | none => throw RVErr.exn
      else pure (orEmptyObj req.getJsonSilent)
    else if ctHas req.contentType "multipart/form-data" then
      (multipartBody req).map JValue.obj
    else
      pure
        (match req.getData with
         | some s => if s.isEmpty then .obj [] else .str s
         | none => .obj [])
  let body_model : Option PModel :=
    match body with
    | some d => d.model
    | none => none
  let queryVal : Option JValue ←
    match query with
    | some m => (m.validate req_query).map some |>.mapError RVErr.vErr
    | none => pure none
  let bodyVal : Option JValue ←
    match body_model with
    | some m => (m.validate parsed_body).map some |>.mapError RVErr.vErr
    | none => pure none
  let headersVal : Option JValue ←
    match headers with
    | some m =>
      (m.validate (.obj (req.headers.map (fun kv => (kv.1, JValue.str kv.2))))).map some
        |>.mapError RVErr.vErr
    | none => pure none
  let cookiesVal : Option JValue ←
    match cookies with
    | some m =>
      (m.validate (.obj (req.cookies.map (fun kv => (kv.1, JValue.str kv.2))))).map some
        |>.mapError RVErr.vErr
    | none => pure none
  pure { query := queryVal, body := bodyVal, headers := headersVal, cookies := cookiesVal }

/-- Translation of utils.default_before_handler: it only logs, so the
draft response is returned unchanged. -/
def default_before_handler (resp : FlaskResp) (e : VErr) : FlaskResp := resp

/-- Translation of utils.default_after_handler: it only logs. -/
def default_after_handler (resp : FlaskResp) (e : Option VErr) : FlaskResp := resp

/-- Translation of FlaskBackend.validate.  The result pairs the response
the client receives (abort(response) delivers the draft response through
the framework) with the number of times the wrapped handler was invoked;
the error side carries a non-validation exception escaping to the
framework.  The before hook is modelled by its effect on the draft error
response (on the success path the source passes response=None, so the
hook has nothing observable to mutate), the after hook by its effect on
the final response. -/
def FlaskBackend.validate {α : Type} (cfg : Config) (func : α → FlaskResp)
    (query : Option PModel) (body : Option ReqDesc)
    (headers cookies : Option PModel) (resp : Option RespD)
    (before : FlaskResp → VErr → FlaskResp)
    (after : FlaskResp → Option VErr → FlaskResp)
    (req : RawRequest) (args : α) : Except String (FlaskResp × Nat) :=
  match request_validation req query body headers cookies with
  | .error (.vErr e) =>
    let response : FlaskResp := { status := cfg.VALIDATION_ERROR_CODE, body := e.payload }
    let response := before response e
    .ok (response, 0)
  | .error .exn => .error "exception escapes to the framework"
  | .ok _ctx =>
    let response := func args
    let (response, resp_validation_error) :
        FlaskResp × Option VErr :=
      match resp with
      | some r =>
        if r.has_model && r.validateAttr then
          match r.find_model response.status with
          | some m =>
            match m.validate response.body with
            | .ok _ => (response, none)
            | .error err =>
              ({ status := 500,
                 body := .obj [("message", .str "response validation error")] }, some err)
          | none => (response, none)
        else (response, none)
      | none => (response, none)
    let response := after response resp_validation_error
    .ok (response, 1)

/-- Printable-ASCII characters: these never need a \uXXXX escape in
json.dumps output (quote and backslash still get two-character escapes). -/
def PlainChar (c : Char) : Prop := 32 ≤ c.toNat ∧ c.toNat ≤ 126

/-- Keys whose characters are printable ASCII. -/
def PlainKey (s : String) : Prop := ∀ c ∈ s.data, PlainChar c

/-- Value universe of the round-trip claim: integers, booleans and nested
objects of such values, with printable-ASCII keys. -/
inductive Simple : JValue → Prop
  | int (n : Int) : Simple (.int n)
  | bool (b : Bool) : Simple (.bool b)
  | obj (kvs : List (String × JValue)) :
      (∀ kv ∈ kvs, PlainKey kv.1) → (∀ kv ∈ kvs, Simple kv.2) → Simple (.obj kvs)

/-- Safety condition on the text following a rendered number: the JSON
reader must not absorb it into the numeral. -/
def NumSafe (rest : List Char) : Prop :=
  ∀ c, rest.head? = some c → c.isDigit = false ∧ c ≠ '.' ∧ c ≠ 'e' ∧ c ≠ 'E'

mutual

/-- Recursion-depth measure of a JSON value, used to discharge the parser
fuel. -/
def jsize : JValue → Nat
  | .obj kvs => 1 + jsizeFields kvs
  | .arr xs => 1 + jsizeList xs
  | _ => 1

def jsizeFields : List (String × JValue) → Nat
  | [] => 0
  | (_, v) :: r => 1 + jsize v + jsizeFields r

def jsizeList : List JValue → Nat
  | [] => 0
  | v :: r => 1 + jsize v + jsizeList r

end

/-- Whether an optional response descriptor has at least one model. -/
def respHasModel (o : Option RespD) : Bool :=
  match o with
  | some r => r.has_model
  | none => false

/-- Response fragment of an optional descriptor, as parse_resp reads it. -/
def respSpec (o : Option RespD) : List (String × JValue) :=
  match o with
  | some r => r.generate_spec
  | none => []

/-- Example model whose validation always succeeds. -/
def pmOk : PModel := ⟨"Demo", .obj [], fun j => .ok j⟩

/-- Example model whose validation always fails with a fixed structured
payload. -/
def pmBad : PModel := ⟨"Query", .obj [], fun _ => .error ⟨.str "bad"⟩⟩

/-- Decoration arguments of the C3 counterexample: only a cookies model,
and a response descriptor declaring a bare 200 with no model. -/
def c3args : DecArgs :=
  { cookies := some pmOk, resp := some (.response true ["HTTP_200"] []) }

/-- Helper for C2 and C10: when request validation fails with a pydantic
error and the before hook leaves the draft response unchanged, validate
returns the draft error response with zero handler invocations. -/
theorem validate_error_case {α : Type} (cfg : Config) (func : α → FlaskResp)
    (query : Option PModel) (body : Option ReqDesc) (headers cookies : Option PModel)
    (resp : Option RespD) (before : FlaskResp → VErr → FlaskResp)
    (after : FlaskResp → Option VErr → FlaskResp) (req : RawRequest) (args : α) (e : VErr)
    (hreq : request_validation req query body headers cookies = .error (.vErr e))
    (hb : ∀ r err, before r err = r) :
    FlaskBackend.validate cfg func query body headers cookies resp before after req args
      = .ok ({ status := cfg.VALIDATION_ERROR_CODE, body := e.payload }, 0) := by
  unfold FlaskBackend.validate
  rw [hreq]
  simp [hb]

/-- C1 counterexample: decorating with resp = None succeeds (no
configuration error is raised at decoration time), refuting the claim
that decoration never succeeds for a route with no declared response. -/
theorem decorate_no_resp_counterexample :
    decorate 0 {} [] = .ok ({ decorator := some 0 }, [])
      ∧ ¬ ∃ e, decorate 0 {} [] = .error e := by
  constructor
  · rfl
  · rintro ⟨e, he⟩
    simp [decorate] at he

/-- C1 (amended): a call to the validate decorator with resp = None
succeeds at decoration time; the decorated handler simply carries no resp
attribute (no configuration error is raised). -/
theorem decorate_no_resp_succeeds (selfId : Nat) (a : DecArgs) (reg : Registry)
    (h : a.resp = none) :
    ∃ f reg2, decorate selfId a reg = .ok (f, reg2) ∧ f.resp = none := by
  refine ⟨(decorateCore selfId a reg).1, (decorateCore selfId a reg).2, rfl, ?_⟩
  simp [decorateCore, h]

/-- C1 witness. -/
theorem decorate_no_resp_succeeds_witness :
    ∃ f reg2, decorate 3 { query := some pmOk } [] = .ok (f, reg2) ∧ f.resp = none :=
  decorate_no_resp_succeeds 3 { query := some pmOk } [] rfl

/-- C5: bypass decisions of an instance a (a ≠ b): strict mode includes
only the a-decorated route; greedy mode includes both the a-decorated and
the undecorated route; normal mode includes both but excludes a route
decorated by a different instance b.  A route is included exactly when
bypass is false. -/
theorem bypass_modes (a b : Nat) (h : a ≠ b) :
    bypass { MODE := "strict" } a (some a) = false
      ∧ bypass { MODE := "strict" } a none = true
      ∧ bypass { MODE := "greedy" } a (some a) = false
      ∧ bypass { MODE := "greedy" } a none = false
      ∧ bypass { MODE := "normal" } a (some a) = false
      ∧ bypass { MODE := "normal" } a none = false
      ∧ bypass { MODE := "normal" } a (some b) = true := by
  refine ⟨?_, ?_, ?_, ?_, ?_, ?_, ?_⟩ <;>
    simp [bypass]
  exact fun hba => absurd hba.symm h

/-- C5 witness. -/
theorem bypass_modes_witness :
    bypass { MODE := "strict" } 0 (some 0) = false
      ∧ bypass { MODE := "strict" } 0 none = true
      ∧ bypass { MODE := "greedy" } 0 (some 0) = false
      ∧ bypass { MODE := "greedy" } 0 none = false
      ∧ bypass { MODE := "normal" } 0 (some 0) = false
      ∧ bypass { MODE := "normal" } 0 none = false
      ∧ bypass { MODE := "normal" } 0 (some 1) = true :=
  bypass_modes 0 1 (by decide)

/-- C9: a query-string key with more than one value keeps its values as
the list of raw strings, in order, with no JSON decoding of the
elements. -/
theorem parse_multi_dict_multi_values (input : List (String × List String))
    (k : String) (vs : List String) (hmem : (k, vs) ∈ input) (hlen : 1 < vs.length) :
    (k, JValue.arr (vs.map JValue.str)) ∈ parse_multi_dict input := by
  have h2 :
      (fun kv : String × List String =>
        match kv.2 with
        | [v] =>
          match loads v with
          | some j => (kv.1, j)
          | none => (kv.1, JValue.str v)
        | vs => (kv.1, JValue.arr (vs.map JValue.str))) (k, vs)
        = (k, JValue.arr (vs.map JValue.str)) := by
    match vs, hlen with
    | v₁ :: v₂ :: t, _ => rfl
  have := List.mem_map_of_mem (f := fun kv : String × List String =>
    match kv.2 with
    | [v] =>
      match loads v with
      | some j => (kv.1, j)
      | none => (kv.1, JValue.str v)
    | vs => (kv.1, JValue.arr (vs.map JValue.str))) hmem
  rw [h2] at this
  exact this

/-- C9 witness. -/
theorem parse_multi_dict_multi_values_witness :
    ("a", JValue.arr [.str "1", .str "2"]) ∈ parse_multi_dict [("a", ["1", "2"])] :=
  parse_multi_dict_multi_values [("a", ["1", "2"])] "a" ["1", "2"]
    (List.mem_singleton.mpr rfl) (by decide)

/-- C3 counterexample: a handler decorated with only a cookies model and a
response descriptor with no model (and no explicit 422 entry) gets no
Validation Error entry synthesized at 422, refuting the claim that a
declared cookies (or body) model triggers the synthesis. -/
theorem parse_resp_cookies_counterexample :
    ((decorateCore 0 c3args []).1.cookies.isSome = true)
      ∧ ((respSpec c3args.resp).lookup "422" = none)
      ∧ ((parse_resp (decorateCore 0 c3args []).1 422).lookup "422" = none) :=
  ⟨rfl, rfl, rfl⟩

/-- C3 (amended): for a decorated handler, the models that trigger the
synthesized Validation Error entry are the query model, the headers model
and the response-descriptor models; body and cookies models do not count
(has_model inspects a "json" attribute the decorator never sets instead
of "body", and does not inspect "cookies").  When such a model is present
and the descriptor has no entry at the configured code, the
{description: "Validation Error"} entry is inserted there; with no such
model the responses are exactly the descriptor fragment. -/
theorem parse_resp_amended (selfId : Nat) (a : DecArgs) (reg : Registry) (code : Nat) :
    has_model (decorateCore selfId a reg).1
        = (a.query.isSome || a.headers.isSome || respHasModel a.resp)
      ∧ (¬dictContains (respSpec a.resp) (toString code)
          ∧ (a.query.isSome || a.headers.isSome || respHasModel a.resp) = true →
          parse_resp (decorateCore selfId a reg).1 code
            = dictInsert (respSpec a.resp) (toString code)
                (.obj [("description", .str "Validation Error")]))
      ∧ ((a.query.isSome || a.headers.isSome || respHasModel a.resp) = false →
          parse_resp (decorateCore selfId a reg).1 code = respSpec a.resp) := by
  have hq : (decorateCore selfId a reg).1.query = a.query := by simp [decorateCore]
  have hh : (decorateCore selfId a reg).1.headers = a.headers := by simp [decorateCore]
  have hj : (decorateCore selfId a reg).1.json = none := by simp [decorateCore]
  have hr : (decorateCore selfId a reg).1.resp = a.resp := by simp [decorateCore]
  have hhm : has_model (decorateCore selfId a reg).1
      = (a.query.isSome || a.headers.isSome || respHasModel a.resp) := by
    unfold has_model respHasModel
    rw [hq, hh, hj, hr]
    cases a.resp <;> simp
  have hresp : (match (decorateCore selfId a reg).1.resp with
      | some r => r.generate_spec
      | none => []) = respSpec a.resp := by
    rw [hr]; cases a.resp <;> rfl
  refine ⟨hhm, ?_, ?_⟩
  · rintro ⟨hnc, hm⟩
    unfold parse_resp
    rw [hresp, hhm, hm]
    rw [if_pos ⟨hnc, rfl⟩]
  · intro hm
    unfold parse_resp
    rw [hresp, hhm, hm]
    rw [if_neg (by simp)]

/-- C3 witness. -/
theorem parse_resp_amended_witness :
    parse_resp (decorateCore 0 { query := some pmOk } []).1 422
      = dictInsert (respSpec none) (toString 422)
          (.obj [("description", .str "Validation Error")]) :=
  (parse_resp_amended 0 { query := some pmOk } [] 422).2.1 ⟨by decide, rfl⟩

/-- C2: when any declared slot fails model validation, the wrapped handler
is never invoked (zero invocations, for every handler) and the returned
response carries the configured validation-error status code with the
structured validation error payload as body; the default configured code
is 422.  The before hook is assumed to leave the draft response unchanged
(the default before handler only logs). -/
theorem validate_aborts_on_request_error {α : Type} (cfg : Config) (func : α → FlaskResp)
    (query : Option PModel) (body : Option ReqDesc) (headers cookies : Option PModel)
    (resp : Option RespD) (before : FlaskResp → VErr → FlaskResp)
    (after : FlaskResp → Option VErr → FlaskResp) (req : RawRequest) (args : α) (e : VErr)
    (hreq : request_validation req query body headers cookies = .error (.vErr e))
    (hb : ∀ r err, before r err = r) :
    FlaskBackend.validate cfg func query body headers cookies resp before after req args
      = .ok ({ status := cfg.VALIDATION_ERROR_CODE, body := e.payload }, 0)
      ∧ ({} : Config).VALIDATION_ERROR_CODE = 422 :=
  ⟨validate_error_case cfg func query body headers cookies resp before after req args e
     hreq hb, rfl⟩

/-- C2 witness. -/
theorem validate_aborts_on_request_error_witness :
    FlaskBackend.validate {} (fun _ : Unit => ⟨200, .bool true⟩) (some pmBad) none none none
        none default_before_handler default_after_handler {} ()
      = .ok ({ status := ({} : Config).VALIDATION_ERROR_CODE, body := .str "bad" }, 0)
      ∧ ({} : Config).VALIDATION_ERROR_CODE = 422 :=
  validate_aborts_on_request_error {} (fun _ : Unit => ⟨200, .bool true⟩) (some pmBad)
    none none none none default_before_handler default_after_handler {} () ⟨.str "bad"⟩
    rfl (fun r err => rfl)

/-- C4: with a response descriptor whose validation flag is on and whose
status-code table binds a model to the handler's actual status, a body
failing that model replaces the handler's response by a 500 with the
generic message, and a body passing it leaves status and body unchanged.
The after hook is assumed to leave the response unchanged (the default
after handler only logs). -/
theorem validate_response_model {α : Type} (cfg : Config) (func : α → FlaskResp)
    (query : Option PModel) (body : Option ReqDesc) (headers cookies : Option PModel)
    (codes : List String) (cms : List (String × (PModel × Bool)))
    (before : FlaskResp → VErr → FlaskResp) (after : FlaskResp → Option VErr → FlaskResp)
    (req : RawRequest) (args : α) (ctx : Context) (m : PModel)
    (hreq : request_validation req query body headers cookies = .ok ctx)
    (ha : ∀ r e2, after r e2 = r)
    (hm : cms ≠ [])
    (hfind : (RespD.response true codes cms).find_model (func args).status = some m) :
    (∀ e2, m.validate (func args).body = .error e2 →
      FlaskBackend.validate cfg func query body headers cookies
          (some (.response true codes cms)) before after req args
        = .ok (⟨500, .obj [("message", .str "response validation error")]⟩, 1))
      ∧ (∀ x, m.validate (func args).body = .ok x →
        FlaskBackend.validate cfg func query body headers cookies
            (some (.response true codes cms)) before after req args
          = .ok (func args, 1)) := by
  have hhm : (RespD.response true codes cms).has_model = true := by
    simp [RespD.has_model, hm]
  constructor
  · intro e2 he2
    unfold FlaskBackend.validate
    rw [hreq]
    simp [hhm, RespD.validateAttr, hfind, he2, ha]
  · intro x hx
    unfold FlaskBackend.validate
    rw [hreq]
    simp [hhm, RespD.validateAttr, hfind, hx, ha]

/-- C4 witness. -/
theorem validate_response_model_witness :
    FlaskBackend.validate {} (fun _ : Unit => ⟨200, .bool true⟩) none none none none
        (some (.response true [] [("HTTP_200", (pmBad, false))]))
        default_before_handler default_after_handler {} ()
      = .ok (⟨500, .obj [("message", .str "response validation error")]⟩, 1) :=
  (validate_response_model {} (fun _ : Unit => ⟨200, .bool true⟩) none none none none
      [] [("HTTP_200", (pmBad, false))] default_before_handler default_after_handler
      {} () {} pmBad rfl (fun r e2 => rfl) (by simp) rfl).1 ⟨.str "bad"⟩ rfl

/-- C10: for a JSON request with no gzip encoding whose body is absent or
not parseable as JSON (request.get_json(silent=True) returns None), the
empty mapping is substituted as the parsed body and the declared body
model is validated against it, so the failure surfaces as a validation
error at the configured status (through the before hook preserving the
draft response), not as a JSON parse exception; a model accepting the
empty mapping yields a context carrying its result. -/
theorem request_json_fallback {α : Type} (cfg : Config) (func : α → FlaskResp)
    (req : RawRequest) (m : PModel) (resp : Option RespD)
    (before : FlaskResp → VErr → FlaskResp) (after : FlaskResp → Option VErr → FlaskResp)
    (args : α)
    (hct : ctHas req.contentType "application/json" = true)
    (hce : ctHas req.contentEncoding "gzip" = false)
    (hjson : req.getJsonSilent = none)
    (hb : ∀ r err, before r err = r) :
    (∀ e2, m.validate (.obj []) = .error e2 →
      request_validation req none (some { model := some m }) none none = .error (.vErr e2)
        ∧ FlaskBackend.validate cfg func none (some { model := some m }) none none resp
            before after req args
          = .ok ({ status := cfg.VALIDATION_ERROR_CODE, body := e2.payload }, 0))
      ∧ (∀ x, m.validate (.obj []) = .ok x →
        request_validation req none (some { model := some m }) none none
          = .ok { body := some x }) := by
  have hbody : request_validation req none (some { model := some m }) none none
      = ((m.validate (.obj [])).map (fun x => { body := some x } : JValue → Context)).mapError
          RVErr.vErr := by
    unfold request_validation
    rw [hct, hce, hjson]
    simp [orEmptyObj]
    cases m.validate (.obj []) <;> rfl
  constructor
  · intro e2 he2
    have h1 : request_validation req none (some { model := some m }) none none
        = .error (.vErr e2) := by rw [hbody, he2]; rfl
    exact ⟨h1, validate_error_case cfg func none (some { model := some m }) none none resp
      before after req args e2 h1 hb⟩
  · intro x hx
    rw [hbody, hx]
    rfl

/-- C10 witness. -/
theorem request_json_fallback_witness :
    request_validation { contentType := some "application/json" } none
        (some { model := some pmBad }) none none = .error (.vErr ⟨.str "bad"⟩)
      ∧ FlaskBackend.validate {} (fun _ : Unit => ⟨200, .bool true⟩) none
          (some { model := some pmBad }) none none none
          default_before_handler default_after_handler
          { contentType := some "application/json" } ()
        = .ok ({ status := ({} : Config).VALIDATION_ERROR_CODE, body := .str "bad" }, 0) :=
  (request_json_fallback {} (fun _ : Unit => ⟨200, .bool true⟩)
      { contentType := some "application/json" } pmBad none
      default_before_handler default_after_handler () rfl rfl rfl (fun r err => rfl)).1
    ⟨.str "bad"⟩ rfl

theorem takeName_length_lt {l v rest} (h : takeName l = some (v, rest)) :
    rest.length < l.length := by
  match l with
  | [] => simp [takeName] at h
  | c :: cs =>
    unfold takeName at h
    by_cases hs : isNameStart c
    · simp [hs] at h
      obtain ⟨-, h2⟩ := h
      have := (List.dropWhile_suffix (l := cs) (p := isNameTail)).length_le
      simp [← h2]
      omega
    · simp [hs] at h

theorem tryCont_length_lt {l v rest} (h : tryCont l = some (v, rest)) :
    rest.length < l.length := by
  unfold tryCont at h
  split at h
  · rename_i r1
    split at h
    · rename_i v2 r2 heq
      have hlt := takeName_length_lt heq
      injection h with h1
      injection h1 with h1 h2
      subst h2
      simp at hlt ⊢
      omega
    · exact absurd h (by simp)
  · exact absurd h (by simp)

theorem scanArgs_length_lt {l acc args v rest} (h : scanArgs l acc = some (args, v, rest)) :
    rest.length < l.length := by
  induction l generalizing acc with
  | nil => simp [scanArgs] at h
  | cons c cs ih =>
    unfold scanArgs at h
    by_cases hc : c = ')'
    · simp only [hc, if_pos rfl] at h
      match htc : tryCont cs with
      | some (v2, rest2) =>
        rw [htc] at h
        simp at h
        obtain ⟨-, -, h3⟩ := h
        subst h3
        have := tryCont_length_lt htc
        simp
        omega
      | none =>
        rw [htc] at h
        have := ih h
        simp
        omega
    · simp only [hc, if_neg hc] at h
      by_cases hn : c = '\n'
      · simp [hn] at h
      · simp only [if_neg hn] at h
        have := ih h
        simp
        omega

theorem matchFallback_length_lt {static r1 st conv args v rest}
    (h : matchFallback static r1 = some (st, conv, args, v, rest)) :
    rest.length < r1.length := by
  unfold matchFallback at h
  split at h
  · rename_i v2 rest2 heq
    have hlt := takeName_length_lt heq
    injection h with h1
    injection h1 with h1 h2
    injection h2 with h2 h3
    injection h3 with h3 h4
    injection h4 with h4 h5
    subst h5
    simp at hlt ⊢
    omega
  · exact absurd h (by simp)

theorem matchToken_length_lt {cs st conv args v rest}
    (h : matchToken cs = some (st, conv, args, v, rest)) : rest.length < cs.length := by
  unfold matchToken at h
  have hsplit := List.takeWhile_append_dropWhile (p := fun c => decide (c ≠ '<')) (l := cs)
  split at h
  · rename_i r1 heq
    have hcs : r1.length < cs.length := by
      conv_rhs => rw [← hsplit]
      rw [heq]
      simp
      omega
    split at h
    · rename_i conv2 r2 heq2
      have h2 := takeName_length_lt heq2
      split at h
      · rename_i r3
        split at h
        · rename_i a2 v2 rest2 heq3
          have h3 := scanArgs_length_lt heq3
          injection h with h4
          injection h4 with h4 h5
          injection h5 with h5 h6
          injection h6 with h6 h7
          injection h7 with h7a h7b
          subst h7b
          simp at h2
          omega
        · exact absurd h (by simp)
      · rename_i r3
        split at h
        · rename_i v2 rest2 heq3
          have h3 := takeName_length_lt heq3
          injection h with h4
          injection h4 with h4 h5
          injection h5 with h5 h6
          injection h6 with h6 h7
          injection h7 with h7a h7b
          subst h7b
          simp at h2 h3
          omega
        · have h3 := matchFallback_length_lt h
          omega
      · have h3 := matchFallback_length_lt h
        omega
    · have h3 := matchFallback_length_lt h
      omega
  · exact absurd h (by simp)

theorem dynVarsOf_append (a b : List Seg) :
    dynVarsOf (a ++ b) = dynVarsOf a ++ dynVarsOf b := by
  simp [dynVarsOf, List.filterMap_append]

theorem dynVarsOf_static (st : List Char) :
    dynVarsOf (if st.isEmpty then [] else [Seg.lit (String.mk st)]) = [] := by
  by_cases h : st.isEmpty <;> simp [h, dynVarsOf]

theorem dynVarsOf_dynOf (conv args : Option (List Char)) (v : List Char) (segs : List Seg) :
    dynVarsOf (dynOf conv args v :: segs) = String.mk v :: dynVarsOf segs := by
  simp [dynVarsOf, dynOf]

/-- Relation between parse_rule's loop and the pure tokenisation scan:
with distinct variable names (also avoiding the accumulated set) and a
bracket-free trailing remainder the loop succeeds with the scanned
segments plus the trailing literal; a repeated variable name (or one
already in the accumulated set) makes it raise. -/
theorem parseRuleAux_spec (fuel : Nat) : ∀ cs used, cs.length < fuel →
    (((dynVarsOf (scanAux fuel cs).1).Nodup →
       (∀ v ∈ dynVarsOf (scanAux fuel cs).1, v ∉ used) →
       ((scanAux fuel cs).2.contains '<' || (scanAux fuel cs).2.contains '>') = false →
       parseRuleAux fuel cs used
         = .ok ((scanAux fuel cs).1 ++
             (if (scanAux fuel cs).2.isEmpty then []
              else [Seg.lit (String.mk (scanAux fuel cs).2)])))
      ∧ ((¬ (dynVarsOf (scanAux fuel cs).1).Nodup
            ∨ ∃ v ∈ dynVarsOf (scanAux fuel cs).1, v ∈ used) →
         ∃ e, parseRuleAux fuel cs used = .error e)) := by
  induction fuel with
  | zero => intro cs used h; omega
  | succ f ih =>
    intro cs used hlen
    match hmt : matchToken cs with
    | none =>
      have hs : scanAux (f + 1) cs = ([], cs) := by simp [scanAux, hmt]
      constructor
      · intro hnd hnu hwf
        rw [hs] at hwf ⊢
        simp only [parseRuleAux, hmt]
        by_cases hce : cs.isEmpty
        · simp [hce]
        · simp only [hce, if_neg, Bool.false_eq_true, reduceIte]
          rw [if_neg (by simp_all)]
          simp [hce]
      · intro hyp
        rw [hs] at hyp
        simp [dynVarsOf] at hyp
    | some (st, conv, args, v, rest) =>
      have hrest : rest.length < f := by
        have := matchToken_length_lt hmt
        omega
      have hs : scanAux (f + 1) cs
          = ((if st.isEmpty then [] else [Seg.lit (String.mk st)]) ++
              dynOf conv args v :: (scanAux f rest).1, (scanAux f rest).2) := by
        simp [scanAux, hmt]
      have hdv : dynVarsOf (scanAux (f + 1) cs).1
          = String.mk v :: dynVarsOf (scanAux f rest).1 := by
        rw [hs]
        rw [dynVarsOf_append, dynVarsOf_static, dynVarsOf_dynOf]
        simp
      constructor
      · intro hnd hnu hwf
        rw [hdv] at hnd hnu
        obtain ⟨hvne, hnd2⟩ := List.nodup_cons.mp hnd
        have hvused : String.mk v ∉ used := hnu _ (List.mem_cons_self _ _)
        have hIH := (ih rest (String.mk v :: used) hrest).1 hnd2
          (fun v2 hv2 => by
            intro hv2mem
            rcases List.mem_cons.mp hv2mem with h1 | h1
            · exact hvne (h1 ▸ hv2)
            · exact hnu v2 (List.mem_cons_of_mem _ hv2) h1)
          (by rw [hs] at hwf; exact hwf)
        simp only [parseRuleAux, hmt]
        rw [if_neg hvused, hIH]
        rw [hs]
        simp [List.append_assoc]
      · intro hyp
        rw [hdv] at hyp
        by_cases hvu : String.mk v ∈ used
        · exact ⟨_, by simp only [parseRuleAux, hmt]; rw [if_pos hvu]⟩
        · have hpre : ¬ (dynVarsOf (scanAux f rest).1).Nodup
              ∨ ∃ v2 ∈ dynVarsOf (scanAux f rest).1, v2 ∈ String.mk v :: used := by
            rcases hyp with h1 | ⟨v2, hv2, hv2u⟩
            · rw [List.nodup_cons] at h1
              push_neg at h1
              by_cases hin : String.mk v ∈ dynVarsOf (scanAux f rest).1
              · exact Or.inr ⟨String.mk v, hin, List.mem_cons_self _ _⟩
              · exact Or.inl (h1 hin)
            · rcases List.mem_cons.mp hv2 with h2 | h2
              · exact absurd (h2 ▸ hv2u) hvu
              · exact Or.inr ⟨v2, h2, List.mem_cons_of_mem _ hv2u⟩
          obtain ⟨e, he⟩ := (ih rest (String.mk v :: used) hrest).2 hpre
          refine ⟨e, ?_⟩
          simp only [parseRuleAux, hmt]
          rw [if_neg hvu, he]

/-- C8 counterexample: the template "/x/<" has no variable name at all
(so its variable names are trivially all distinct), yet parsing raises
the malformed-url-rule error, refuting the claim that every template
with distinct variable names parses without error. -/
theorem parse_rule_malformed_counterexample :
    (dynVars "/x/<").Nodup ∧ parse_rule "/x/<" = .error "malformed url rule" :=
  ⟨by decide, rfl⟩

/-- C8 (amended): reusing a variable name in two bracket tokens makes
parse_rule raise; a well-formed template (one whose token scan leaves no
stray '<' or '>' behind) with all-distinct variable names parses into the
ordered sequence of literal segments and (converter, arguments, variable)
tuples without error. -/
theorem parse_rule_unique_names :
    (∀ s : String, ¬ (dynVars s).Nodup → ∃ e, parse_rule s = .error e)
      ∧ (∀ s : String, (dynVars s).Nodup → wellFormedTail s = true →
          parse_rule s = .ok (fullSegs s)) := by
  constructor
  · intro s hnd
    exact (parseRuleAux_spec (s.data.length + 1) s.data [] (by omega)).2 (Or.inl hnd)
  · intro s hnd hwf
    have hwf2 : ((scanSegs s).2.contains '<' || (scanSegs s).2.contains '>') = false := by
      unfold wellFormedTail at hwf
      simpa using hwf
    exact (parseRuleAux_spec (s.data.length + 1) s.data [] (by omega)).1 hnd
      (by simp) hwf2

/-- C8 witness. -/
theorem parse_rule_unique_names_witness :
    (∃ e, parse_rule "/a/<x>/<x>" = .error e)
      ∧ parse_rule "/a/<id>/b" = .ok (fullSegs "/a/<id>/b") :=
  ⟨parse_rule_unique_names.1 "/a/<x>/<x>" (by decide),
   parse_rule_unique_names.2 "/a/<id>/b" (by decide) (by decide)⟩

/-- C6: the route /x/<int(min=1,max=5):n> resolves (for any custom
converter table) to the path /x/{n} with exactly one path parameter,
named n, required, in "path", whose schema is the integer/int32 schema
with minimum 1 and maximum 5; in general the int-converter schema
carries maximum exactly when the "max" kwarg is present and minimum
exactly when "min" is, over the base {type: integer, format: int32}. -/
theorem parse_path_int_schema :
    (∀ cr, parse_path cr "/x/<int(min=1,max=5):n>"
      = .ok ("/x/\x7bn\x7d", [.obj [("name", .str "n"), ("in", .str "path"),
          ("required", .bool true),
          ("schema", .obj [("type", .str "integer"), ("format", .str "int32"),
            ("maximum", .int 5), ("minimum", .int 1)])]]))
      ∧ (∀ kwargs : List (String × JValue),
        (intSchemaFields kwargs).lookup "maximum" = kwargs.lookup "max"
          ∧ (intSchemaFields kwargs).lookup "minimum" = kwargs.lookup "min"
          ∧ (intSchemaFields kwargs).lookup "type" = some (.str "integer")
          ∧ (intSchemaFields kwargs).lookup "format" = some (.str "int32")) := by
  constructor
  · intro cr
    rfl
  · intro kwargs
    unfold intSchemaFields
    cases hmax : kwargs.lookup "max" <;> cases hmin : kwargs.lookup "min" <;>
      simp [List.lookup, hmax, hmin]

theorem digitChar_isDigit {d : Nat} (h : d < 10) : (digitChar d).isDigit = true := by
  interval_cases d <;> decide

theorem digitChar_toNat {d : Nat} (h : d < 10) : (digitChar d).toNat = 48 + d := by
  interval_cases d <;> decide

theorem digitChar_ne_zero {d : Nat} (h1 : 0 < d) (h2 : d < 10) : digitChar d ≠ '0' := by
  interval_cases d <;> decide

theorem natToCharsAux_append (fuel : Nat) : ∀ n acc, n ≤ fuel →
    natToCharsAux fuel n acc = natToCharsAux fuel n [] ++ acc := by
  induction fuel with
  | zero => intro n acc h; simp [natToCharsAux]
  | succ f ih =>
    intro n acc h
    by_cases hz : n = 0
    · simp [natToCharsAux, hz]
    · have hdiv : n / 10 ≤ f := by
        have := Nat.div_lt_self (Nat.pos_of_ne_zero hz) (by norm_num : 1 < 10)
        omega
      simp only [natToCharsAux, if_neg hz]
      rw [ih (n / 10) (digitChar (n % 10) :: acc) hdiv,
        ih (n / 10) [digitChar (n % 10)] hdiv]
      simp

theorem natToCharsAux_all_digits (fuel : Nat) : ∀ n, n ≤ fuel →
    ∀ c ∈ natToCharsAux fuel n [], c.isDigit = true := by
  induction fuel with
  | zero => intro n h c hc; simp [natToCharsAux] at hc
  | succ f ih =>
    intro n h c hc
    by_cases hz : n = 0
    · simp [natToCharsAux, hz] at hc
    · have hdiv : n / 10 ≤ f := by
        have := Nat.div_lt_self (Nat.pos_of_ne_zero hz) (by norm_num : 1 < 10)
        omega
      simp only [natToCharsAux, if_neg hz] at hc
      rw [natToCharsAux_append f _ _ hdiv] at hc
      rcases List.mem_append.mp hc with h1 | h1
      · exact ih _ hdiv c h1
      · simp at h1
        subst h1
        exact digitChar_isDigit (Nat.mod_lt _ (by norm_num))

theorem natToCharsAux_ne_nil (fuel : Nat) (n : Nat) (h : n ≤ fuel) (hz : 0 < n) :
    natToCharsAux fuel n [] ≠ [] := by
  match fuel with
  | 0 => omega
  | f + 1 =>
    have hdiv : n / 10 ≤ f := by
      have := Nat.div_lt_self hz (by norm_num : 1 < 10)
      omega
    simp only [natToCharsAux, if_neg (by omega : ¬ n = 0)]
    rw [natToCharsAux_append f _ _ hdiv]
    simp

theorem natToCharsAux_head_ne_zero (fuel : Nat) : ∀ n, n ≤ fuel → 0 < n →
    (natToCharsAux fuel n []).headD ' ' ≠ '0' := by
  induction fuel with
  | zero => intro n h hz; omega
  | succ f ih =>
    intro n h hz
    have hdiv : n / 10 ≤ f := by
      have := Nat.div_lt_self hz (by norm_num : 1 < 10)
      omega
    simp only [natToCharsAux, if_neg (by omega : ¬ n = 0)]
    rw [natToCharsAux_append f _ _ hdiv]
    by_cases hsmall : n < 10
    · have hd0 : n / 10 = 0 := Nat.div_eq_of_lt hsmall
      rw [hd0]
      have h0 : natToCharsAux f 0 [] = [] := by cases f <;> simp [natToCharsAux]
      rw [h0]
      have hm : n % 10 = n := Nat.mod_eq_of_lt hsmall
      rw [hm]
      simpa using digitChar_ne_zero hz hsmall
    · have hpos : 0 < n / 10 := Nat.div_pos (by omega) (by norm_num)
      have hne := natToCharsAux_ne_nil f (n / 10) hdiv hpos
      have := ih (n / 10) hdiv hpos
      match hh : natToCharsAux f (n / 10) [] with
      | [] => exact absurd hh hne
      | c :: t =>
        rw [hh] at this
        simpa using this

theorem foldlVal_natToCharsAux (fuel : Nat) : ∀ n, n ≤ fuel → ∀ v : Nat,
    (natToCharsAux fuel n []).foldl (fun a c => a * 10 + (c.toNat - 48)) v
      = v * 10 ^ (natToCharsAux fuel n []).length + n := by
  induction fuel with
  | zero =>
    intro n h v
    interval_cases n
    simp [natToCharsAux]
  | succ f ih =>
    intro n h v
    by_cases hz : n = 0
    · simp [natToCharsAux, hz]
    · have hdiv : n / 10 ≤ f := by
        have := Nat.div_lt_self (Nat.pos_of_ne_zero hz) (by norm_num : 1 < 10)
        omega
      simp only [natToCharsAux, if_neg hz]
      rw [natToCharsAux_append f _ _ hdiv]
      rw [List.foldl_append, List.length_append]
      rw [ih _ hdiv]
      simp only [List.foldl_cons, List.foldl_nil, List.length_cons, List.length_nil]
      rw [digitChar_toNat (Nat.mod_lt _ (by norm_num))]
      have hmod : 48 + n % 10 - 48 = n % 10 := by omega
      rw [hmod]
      rw [pow_succ, ← mul_assoc]
      generalize v * 10 ^ (natToCharsAux f (n / 10) []).length = A
      omega

theorem digitsVal_natToChars (n : Nat) : digitsVal (natToChars n) = n := by
  unfold natToChars digitsVal
  by_cases hz : n = 0
  · simp [hz]
  · rw [if_neg hz]
    rw [foldlVal_natToCharsAux n n (le_refl n) 0]
    simp

theorem natToChars_all_digits (n : Nat) : ∀ c ∈ natToChars n, c.isDigit = true := by
  unfold natToChars
  by_cases hz : n = 0
  · simp [hz]
  · rw [if_neg hz]
    exact natToCharsAux_all_digits n n (le_refl n)

theorem natToChars_ne_nil (n : Nat) : natToChars n ≠ [] := by
  unfold natToChars
  by_cases hz : n = 0
  · simp [hz]
  · rw [if_neg hz]
    exact natToCharsAux_ne_nil n n (le_refl n) (Nat.pos_of_ne_zero hz)

theorem natToChars_no_leading_zero (n : Nat) :
    1 < (natToChars n).length → (natToChars n).headD '0' ≠ '0' := by
  unfold natToChars
  by_cases hz : n = 0
  · simp [hz]
  · rw [if_neg hz]
    intro hlen
    have := natToCharsAux_head_ne_zero n n (le_refl n) (Nat.pos_of_ne_zero hz)
    match hh : natToCharsAux n n [] with
    | [] => simp [hh] at hlen
    | c :: t =>
      rw [hh] at this
      simpa using this

theorem takeWhile_append_all {p : Char → Bool} :
    ∀ (l₁ l₂ : List Char), (∀ a ∈ l₁, p a = true) →
      (∀ b, l₂.head? = some b → p b = false) →
      (l₁ ++ l₂).takeWhile p = l₁ ∧ (l₁ ++ l₂).dropWhile p = l₂ := by
  intro l₁
  induction l₁ with
  | nil =>
    intro l₂ h1 h2
    match l₂ with
    | [] => simp
    | b :: t =>
      have := h2 b rfl
      simp [List.takeWhile_cons, List.dropWhile_cons, this]
  | cons a t ih =>
    intro l₂ h1 h2
    have hpa : p a = true := h1 a (by simp)
    have := ih l₂ (fun x hx => h1 x (by simp [hx])) h2
    simp [List.takeWhile_cons, List.dropWhile_cons, hpa, this.1, this.2]

theorem isDigit_ne {c x : Char} (h : c.isDigit = true) (hx : x.isDigit = false) :
    c ≠ x := by
  intro hc
  rw [hc, hx] at h
  exact Bool.false_ne_true h

theorem isDigit_not_ws {c : Char} (h : c.isDigit = true) : isJsonWs c = false := by
  have h1 : c ≠ ' ' := isDigit_ne h (by decide)
  have h2 : c ≠ '\t' := isDigit_ne h (by decide)
  have h3 : c ≠ '\n' := isDigit_ne h (by decide)
  have h4 : c ≠ '\r' := isDigit_ne h (by decide)
  simp [isJsonWs, h1, h2, h3, h4]

theorem parseNumberPos_digits (neg : Bool) (m : Nat) (rest : List Char) (h : NumSafe rest) :
    parseNumberPos neg (natToChars m ++ rest)
      = some (.int (if neg then -(m : Int) else (m : Int)), rest) := by
  have hrest : ∀ b, rest.head? = some b → b.isDigit = false := fun b hb => (h b hb).1
  have hnotfloat : ((rest.headD ' ' = '.' ∨ rest.headD ' ' = 'e'
      ∨ rest.headD ' ' = 'E') : Prop) → False := by
    intro hcontra
    rcases rest with - | ⟨b, t⟩
    · simp [List.headD] at hcontra
    · have hb := h b rfl
      simp [List.headD] at hcontra
      rcases hcontra with h1 | h1 | h1 <;> simp [h1] at hb
  have hsplit := takeWhile_append_all (natToChars m) rest
    (natToChars_all_digits m) hrest
  have hnolead := natToChars_no_leading_zero m
  have hdval := digitsVal_natToChars m
  match hm : natToChars m with
  | [] => exact absurd hm (natToChars_ne_nil m)
  | c :: cs0 =>
    have hcdig : c.isDigit = true := by
      have := natToChars_all_digits m c (by rw [hm]; simp)
      exact this
    rw [hm] at hsplit hnolead hdval
    unfold parseNumberPos
    rw [show ((c :: cs0) ++ rest).headD ' ' = c by simp]
    rw [if_neg (by simp [hcdig])]
    simp only [hsplit.1, hsplit.2]
    rw [if_neg (by
      rintro ⟨hlen, hzero⟩
      exact (hnolead (by simpa using hlen)) (by simpa using hzero))]
    rw [if_neg hnotfloat]
    rw [hdval]

theorem parseNumber_intChars (n : Int) (rest : List Char) (h : NumSafe rest) :
    parseNumber (intChars n ++ rest) = some (.int n, rest) := by
  unfold intChars parseNumber
  by_cases hneg : n < 0
  · rw [if_pos hneg]
    rw [show (('-' :: natToChars n.natAbs) ++ rest).headD ' ' = '-' by simp]
    rw [if_pos rfl]
    rw [show (('-' :: natToChars n.natAbs) ++ rest).tail = natToChars n.natAbs ++ rest
      by simp]
    rw [parseNumberPos_digits true n.natAbs rest h]
    have hval : (if (true : Bool) then -((n.natAbs : Int)) else ((n.natAbs : Int))) = n := by
      rw [if_pos rfl]
      omega
    rw [hval]
  · rw [if_neg hneg]
    match hm : natToChars n.toNat with
    | [] => exact absurd hm (natToChars_ne_nil n.toNat)
    | c :: cs0 =>
      have hcdig : c.isDigit = true := by
        have := natToChars_all_digits n.toNat c (by rw [hm]; simp)
        exact this
      rw [← hm]
      rw [show ((natToChars n.toNat) ++ rest).headD ' ' = c by rw [hm]; simp]
      rw [if_neg (isDigit_ne hcdig (by decide))]
      rw [parseNumberPos_digits false n.toNat rest h]
      have hval : (if (false : Bool) then -((n.toNat : Int)) else ((n.toNat : Int))) = n := by
        rw [if_neg (by simp)]
        omega
      rw [hval]

theorem numSafe_nil : NumSafe [] := by
  intro b hb
  simp at hb

theorem numSafe_cons {c : Char} {t : List Char} (h1 : c.isDigit = false)
    (h2 : c ≠ '.') (h3 : c ≠ 'e') (h4 : c ≠ 'E') : NumSafe (c :: t) := by
  intro b hb
  simp at hb
  subst hb
  exact ⟨h1, h2, h3, h4⟩

theorem escChar_plain {c : Char} (h : PlainChar c) (hq : c ≠ '"') (hb : c ≠ '\\') :
    escChar c = [c] := by
  obtain ⟨h1, h2⟩ := h
  have hn : c ≠ '\n' := by intro hc; subst hc; simp at h1
  have ht : c ≠ '\t' := by intro hc; subst hc; simp at h1
  have hr : c ≠ '\r' := by intro hc; subst hc; simp at h1
  unfold escChar
  rw [if_neg hq]
  rw [if_neg hb]
  rw [if_neg hn]
  rw [if_neg ht]
  rw [if_neg hr]
  rw [if_neg (show ¬ c.toNat = 8 by omega)]
  rw [if_neg (show ¬ c.toNat = 12 by omega)]
  rw [if_neg (show ¬ ((c.toNat < 32 || 127 ≤ c.toNat) = true) by simp; omega)]

theorem psr_quote (r : List Char) : parseStringRestL ('"' :: r) = some ([], r) := by
  simp [parseStringRestL]

theorem psr_esc_some {r : List Char} {u : Char} {r2 : List Char}
    (h : parseEscape r = some (u, r2)) :
    parseStringRestL ('\\' :: r) = (parseStringRestL r2).map (fun p => (u :: p.1, p.2)) := by
  simp only [parseStringRestL]
  rw [if_neg (by decide), if_pos trivial]
  split
  · rename_i u2 r3 heq
    rw [h] at heq
    injection heq with heq2
    injection heq2 with h1 h2
    subst h1 h2
    rfl
  · rename_i heq
    rw [h] at heq
    exact absurd heq (by simp)

theorem psr_plain {c : Char} (r : List Char) (hq : c ≠ '"') (hb : c ≠ '\\')
    (hc : ¬ c.toNat < 32) :
    parseStringRestL (c :: r) = (parseStringRestL r).map (fun p => (c :: p.1, p.2)) := by
  rw [parseStringRestL]
  simp [hq, hb, hc]

theorem parseStringRestL_roundtrip :
    ∀ (k : List Char) (rest : List Char), (∀ c ∈ k, PlainChar c) →
      parseStringRestL ((k.map escChar).flatten ++ '"' :: rest) = some (k, rest) := by
  intro k
  induction k with
  | nil =>
    intro rest hp
    simpa using psr_quote rest
  | cons c t ih =>
    intro rest hp
    have hpc : PlainChar c := hp c (by simp)
    have hrec := ih rest (fun x hx => hp x (by simp [hx]))
    by_cases hq : c = '"'
    · subst hq
      rw [show ((('"' :: t).map escChar).flatten ++ '"' :: rest)
          = '\\' :: ('"' :: ((t.map escChar).flatten ++ '"' :: rest)) by
        simp [escChar]]
      rw [psr_esc_some (show parseEscape ('"' :: ((t.map escChar).flatten ++ '"' :: rest))
        = some ('"', (t.map escChar).flatten ++ '"' :: rest) from rfl)]
      rw [hrec]
      rfl
    · by_cases hbs : c = '\\'
      · subst hbs
        rw [show ((('\\' :: t).map escChar).flatten ++ '"' :: rest)
            = '\\' :: ('\\' :: ((t.map escChar).flatten ++ '"' :: rest)) by
          simp [escChar]]
        rw [psr_esc_some
          (show parseEscape ('\\' :: ((t.map escChar).flatten ++ '"' :: rest))
            = some ('\\', (t.map escChar).flatten ++ '"' :: rest) from rfl)]
        rw [hrec]
        rfl
      · rw [show (((c :: t).map escChar).flatten ++ '"' :: rest)
            = c :: ((t.map escChar).flatten ++ '"' :: rest) by
          simp [escChar_plain hpc hq hbs]]
        rw [psr_plain _ hq hbs (by obtain ⟨h1, h2⟩ := hpc; omega)]
        rw [hrec]
        rfl

/-- Reading a rendered string literal from after its opening quote. -/
theorem strChars_parse (k : String) (z : List Char) (hp : PlainKey k) :
    parseStringRestL ((strChars k ++ z).tail) = some (k.data, z) := by
  have : (strChars k ++ z).tail = (k.data.map escChar).flatten ++ '"' :: z := by
    simp [strChars]
  rw [this]
  exact parseStringRestL_roundtrip k.data z hp

theorem string_mk_data (s : String) : String.mk s.data = s := by
  cases s
  rfl

theorem skipWs_not_ws (c : Char) (r : List Char) (h : isJsonWs c = false) :
    skipWs (c :: r) = c :: r := by
  simp [skipWs, List.dropWhile_cons, h]

theorem skipWs_space (r : List Char) : skipWs (' ' :: r) = skipWs r := by
  simp [skipWs, List.dropWhile_cons, isJsonWs]

theorem parseP_value_ws (f : Nat) (x : List Char) :
    parseP (f + 1) .value (' ' :: x) = parseP (f + 1) .value x := by
  simp only [parseP]
  rw [skipWs_space]

theorem parseP_objFields_ws (f : Nat) (acc : List (String × JValue)) (x : List Char) :
    parseP (f + 1) (.objFields acc) (' ' :: x) = parseP (f + 1) (.objFields acc) x := by
  simp only [parseP]
  rw [skipWs_space]

theorem parseP_value_true (f : Nat) (r : List Char) :
    parseP (f + 1) .value ('t' :: 'r' :: 'u' :: 'e' :: r) = some (.bool true, r) := by
  simp [parseP, skipWs_not_ws 't' _ (by decide)]

theorem parseP_value_false (f : Nat) (r : List Char) :
    parseP (f + 1) .value ('f' :: 'a' :: 'l' :: 's' :: 'e' :: r) = some (.bool false, r) := by
  simp [parseP, skipWs_not_ws 'f' _ (by decide)]

theorem parseP_value_digit {c : Char} (f : Nat) (r : List Char) (hd : c.isDigit = true) :
    parseP (f + 1) .value (c :: r) = parseNumber (c :: r) := by
  have h1 : c ≠ '\x7b' := isDigit_ne hd (by decide)
  have h2 : c ≠ '[' := isDigit_ne hd (by decide)
  have h3 : c ≠ '"' := isDigit_ne hd (by decide)
  have h4 : c ≠ 't' := isDigit_ne hd (by decide)
  have h5 : c ≠ 'f' := isDigit_ne hd (by decide)
  have h6 : c ≠ 'n' := isDigit_ne hd (by decide)
  have h7 : c ≠ 'N' := isDigit_ne hd (by decide)
  have h8 : c ≠ 'I' := isDigit_ne hd (by decide)
  have h9 : c ≠ '-' := isDigit_ne hd (by decide)
  simp only [parseP]
  rw [skipWs_not_ws c _ (isDigit_not_ws hd)]
  simp [h1, h2, h3, h4, h5, h6, h7, h8, h9, hd]

theorem parseP_value_minus_digit {c2 : Char} (f : Nat) (r2 : List Char)
    (hd : c2.isDigit = true) :
    parseP (f + 1) .value ('-' :: c2 :: r2) = parseNumber ('-' :: c2 :: r2) := by
  have h8 : c2 ≠ 'I' := isDigit_ne hd (by decide)
  simp only [parseP]
  rw [skipWs_not_ws '-' _ (by decide)]
  simp [h8]

theorem parseP_value_obj_empty (f : Nat) (r : List Char) :
    parseP (f + 1) .value ('\x7b' :: '\x7d' :: r) = some (.obj [], r) := by
  simp only [parseP]
  rw [skipWs_not_ws '\x7b' _ (by decide)]
  simp [skipWs_not_ws '\x7d' _ (by decide)]

theorem parseP_value_obj_nonempty {f : Nat} {r : List Char}
    (h : (skipWs r).headD ' ' ≠ '\x7d') :
    parseP (f + 1) .value ('\x7b' :: r) = parseP f (.objFields []) r := by
  simp only [parseP]
  rw [skipWs_not_ws '\x7b' _ (by decide)]
  simp
  intro hc
  exact absurd (show (skipWs r).headD ' ' = '\x7d' by simpa using hc) h

theorem parseP_obj_step (f : Nat) (acc : List (String × JValue)) (k : String)
    (w : List Char) (hk : PlainKey k) :
    parseP (f + 1) (.objFields acc) (strChars k ++ ':' :: ' ' :: w)
      = (match parseP f .value (' ' :: w) with
         | some (v, r4) =>
           if (skipWs r4).headD ' ' = ',' then
             parseP f (.objFields (acc ++ [(k, v)])) (skipWs r4).tail
           else if (skipWs r4).headD ' ' = '\x7d' then
             some (.obj (acc ++ [(k, v)]), (skipWs r4).tail)
           else none
         | none => none) := by
  have hcons : strChars k ++ ':' :: ' ' :: w
      = '"' :: (((k.data.map escChar).flatten ++ ['"']) ++ ':' :: ' ' :: w) := by
    simp [strChars]
  have hkey : parseStringRestL ((strChars k ++ ':' :: ' ' :: w).tail)
      = some (k.data, ':' :: ' ' :: w) := strChars_parse k (':' :: ' ' :: w) hk
  rw [hcons] at hkey ⊢
  simp only [parseP]
  rw [skipWs_not_ws '"' _ (by decide)]
  simp only [List.tail_cons] at hkey
  simp only [List.append_assoc, List.cons_append, List.nil_append] at hkey
  simp [hkey, string_mk_data, skipWs_not_ws ':' _ (by decide)]

theorem dumpsFields_eq (kvs : List (String × JValue)) :
    dumpsFields kvs = kvs.map fieldChars := by
  induction kvs with
  | nil => simp [dumpsFields]
  | cons kv tl ih =>
    cases kv
    simp [dumpsFields, fieldChars, ih]

theorem dumpsChars_int (n : Int) : dumpsChars (.int n) = intChars n := by
  simp [dumpsChars]

theorem dumpsChars_true : dumpsChars (.bool true) = ['t', 'r', 'u', 'e'] := by
  simp [dumpsChars]

theorem dumpsChars_false : dumpsChars (.bool false) = ['f', 'a', 'l', 's', 'e'] := by
  simp [dumpsChars]

theorem dumpsChars_obj_nil : dumpsChars (.obj []) = ['\x7b', '\x7d'] := by
  simp [dumpsChars, dumpsFields, joinSep]

theorem dumpsChars_obj (kvs : List (String × JValue)) :
    dumpsChars (.obj kvs) = '\x7b' :: (objInner kvs ++ ['\x7d']) := by
  simp [dumpsChars, objInner, dumpsFields_eq]

theorem objInner_single (kv : String × JValue) : objInner [kv] = fieldChars kv := by
  simp [objInner, joinSep]

theorem objInner_cons (kv kv2 : String × JValue) (tl : List (String × JValue)) :
    objInner (kv :: kv2 :: tl) = fieldChars kv ++ [',', ' '] ++ objInner (kv2 :: tl) := by
  simp [objInner, joinSep]

theorem jsize_pos (v : JValue) : 1 ≤ jsize v := by
  cases v <;> simp [jsize]

/-- Main round-trip lemma: the JSON reader, given enough fuel, reads back
any value of the claim's universe from its rendering, leaving the
trailing input untouched. -/
theorem parse_dumps (fuel : Nat) :
    (∀ (v : JValue) (rest : List Char), Simple v → jsize v ≤ fuel → NumSafe rest →
        parseP fuel .value (dumpsChars v ++ rest) = some (v, rest))
      ∧ (∀ (kvs acc : List (String × JValue)) (rest : List Char), kvs ≠ [] →
          (∀ kv ∈ kvs, PlainKey kv.1) → (∀ kv ∈ kvs, Simple kv.2) →
          jsizeFields kvs ≤ fuel →
          parseP fuel (.objFields acc) (objInner kvs ++ '\x7d' :: rest)
            = some (.obj (acc ++ kvs), rest)) := by
  induction fuel using Nat.strong_induction_on with
  | _ fuel ih =>
    constructor
    · intro v rest hs hsize hnum
      have h1 : 1 ≤ jsize v := jsize_pos v
      obtain ⟨f, rfl⟩ : ∃ f, fuel = f + 1 := ⟨fuel - 1, by omega⟩
      cases hs with
      | int n =>
        rw [dumpsChars_int]
        by_cases hneg : n < 0
        · have hi : intChars n = '-' :: natToChars n.natAbs := by simp [intChars, hneg]
          rw [hi]
          match hm : natToChars n.natAbs with
          | [] => exact absurd hm (natToChars_ne_nil _)
          | c2 :: cs0 =>
            have hd : c2.isDigit = true := by
              have := natToChars_all_digits n.natAbs c2 (by rw [hm]; simp)
              exact this
            simp only [List.cons_append]
            rw [parseP_value_minus_digit f _ hd]
            have harg : '-' :: c2 :: (cs0 ++ rest) = intChars n ++ rest := by
              rw [hi, hm]
              simp
            rw [harg]
            exact parseNumber_intChars n rest hnum
        · have hi : intChars n = natToChars n.toNat := by simp [intChars, hneg]
          rw [hi]
          match hm : natToChars n.toNat with
          | [] => exact absurd hm (natToChars_ne_nil _)
          | c2 :: cs0 =>
            have hd : c2.isDigit = true := by
              have := natToChars_all_digits n.toNat c2 (by rw [hm]; simp)
              exact this
            simp only [List.cons_append]
            rw [parseP_value_digit f _ hd]
            have harg : c2 :: (cs0 ++ rest) = intChars n ++ rest := by
              rw [hi, hm]
              simp
            rw [harg]
            exact parseNumber_intChars n rest hnum
      | bool b =>
        cases b
        · rw [dumpsChars_false]
          simp only [List.cons_append, List.nil_append]
          exact parseP_value_false f rest
        · rw [dumpsChars_true]
          simp only [List.cons_append, List.nil_append]
          exact parseP_value_true f rest
      | obj kvs hk hv =>
        match kvs with
        | [] =>
          rw [dumpsChars_obj_nil]
          simp only [List.cons_append, List.nil_append]
          exact parseP_value_obj_empty f rest
        | kv :: tl =>
          rw [dumpsChars_obj]
          simp only [List.cons_append]
          have hassoc : (objInner (kv :: tl) ++ ['\x7d']) ++ rest
              = objInner (kv :: tl) ++ '\x7d' :: rest := by simp
          rw [hassoc]
          have hhead : ∃ z, objInner (kv :: tl) ++ '\x7d' :: rest = '"' :: z := by
            match tl with
            | [] =>
              refine ⟨((kv.1.data.map escChar).flatten ++ ['"'])
                ++ [':', ' '] ++ dumpsChars kv.2 ++ '\x7d' :: rest, ?_⟩
              rw [objInner_single]
              simp [fieldChars, strChars]
            | kv2 :: tl2 =>
              refine ⟨((kv.1.data.map escChar).flatten ++ ['"'])
                ++ [':', ' '] ++ dumpsChars kv.2 ++ [',', ' ']
                ++ objInner (kv2 :: tl2) ++ '\x7d' :: rest, ?_⟩
              rw [objInner_cons]
              simp [fieldChars, strChars]
          obtain ⟨z, hz⟩ := hhead
          rw [parseP_value_obj_nonempty (by
            rw [hz, skipWs_not_ws '"' _ (by decide)]
            simp)]
          have hjf : jsizeFields (kv :: tl) ≤ f := by
            have : jsize (.obj (kv :: tl)) = 1 + jsizeFields (kv :: tl) := by simp [jsize]
            omega
          have hres := (ih f (by omega)).2 (kv :: tl) [] rest (by simp) hk hv hjf
          rw [hres]
          simp
    · intro kvs acc rest hne hk hv hsize
      match kvs with
      | [] => exact absurd rfl hne
      | (k, v) :: tl =>
        have hsv : Simple v := hv (k, v) (by simp)
        have hpk : PlainKey k := hk (k, v) (by simp)
        have hjv : 1 ≤ jsize v := jsize_pos v
        have hjf : jsizeFields ((k, v) :: tl) = 1 + jsize v + jsizeFields tl := by
          simp [jsizeFields]
        obtain ⟨f, rfl⟩ : ∃ f, fuel = f + 1 := ⟨fuel - 1, by omega⟩
        obtain ⟨g, rfl⟩ : ∃ g, f = g + 1 := ⟨f - 1, by omega⟩
        match tl with
        | [] =>
          have hin : objInner [(k, v)] ++ '\x7d' :: rest
              = strChars k ++ ':' :: ' ' :: (dumpsChars v ++ '\x7d' :: rest) := by
            rw [objInner_single]
            simp [fieldChars]
          rw [hin, parseP_obj_step (g + 1) acc k _ hpk]
          rw [parseP_value_ws g _]
          rw [(ih (g + 1) (by omega)).1 v ('\x7d' :: rest) hsv (by omega)
            (numSafe_cons (by decide) (by decide) (by decide) (by decide))]
          simp [skipWs_not_ws '\x7d' _ (by decide)]
        | kv2 :: tl2 =>
          have hjf2 : 1 ≤ jsizeFields (kv2 :: tl2) := by
            cases kv2
            simp [jsizeFields]
            omega
          have hin : objInner ((k, v) :: kv2 :: tl2) ++ '\x7d' :: rest
              = strChars k ++ ':' :: ' ' ::
                  (dumpsChars v ++ ',' :: ' ' :: (objInner (kv2 :: tl2) ++ '\x7d' :: rest)) := by
            rw [objInner_cons]
            simp [fieldChars]
          rw [hin, parseP_obj_step (g + 1) acc k _ hpk]
          rw [parseP_value_ws g _]
          rw [(ih (g + 1) (by omega)).1 v
            (',' :: ' ' :: (objInner (kv2 :: tl2) ++ '\x7d' :: rest)) hsv (by omega)
            (numSafe_cons (by decide) (by decide) (by decide) (by decide))]
          simp only [skipWs_not_ws ',' _ (by decide), List.headD_cons, if_pos rfl,
            List.tail_cons]
          rw [parseP_objFields_ws g _ _]
          rw [(ih (g + 1) (by omega)).2 (kv2 :: tl2) (acc ++ [(k, v)]) rest (by simp)
            (fun kv h => hk kv (by simp [h])) (fun kv h => hv kv (by simp [h]))
            (by omega)]
          simp

theorem strChars_length_ge (k : String) : 2 ≤ (strChars k).length := by
  simp [strChars]

theorem jsize_le_dumps (n : Nat) :
    (∀ v, Simple v → jsize v ≤ n → jsize v ≤ (dumpsChars v).length)
      ∧ (∀ kvs, kvs ≠ [] → (∀ kv ∈ kvs, Simple kv.2) → jsizeFields kvs ≤ n →
          jsizeFields kvs ≤ (objInner kvs).length) := by
  induction n using Nat.strong_induction_on with
  | _ n ih =>
    constructor
    · intro v hs hn
      cases hs with
      | int m =>
        simp only [jsize, dumpsChars_int, intChars]
        by_cases hneg : m < 0
        · rw [if_pos hneg]
          match hm : natToChars m.natAbs with
          | [] => exact absurd hm (natToChars_ne_nil _)
          | c :: t => simp
        · rw [if_neg hneg]
          match hm : natToChars m.toNat with
          | [] => exact absurd hm (natToChars_ne_nil _)
          | c :: t => simp
      | bool b =>
        cases b <;> simp [jsize, dumpsChars_true, dumpsChars_false]
      | obj kvs hk hv =>
        match kvs with
        | [] => simp [jsize, jsizeFields, dumpsChars_obj_nil]
        | kv :: tl =>
          have hsz : jsize (JValue.obj (kv :: tl)) = 1 + jsizeFields (kv :: tl) := by
            simp [jsize]
          rw [hsz] at hn
          have hq := (ih (n - 1) (by omega)).2 (kv :: tl) (by simp) hv (by omega)
          rw [hsz, dumpsChars_obj]
          simp only [List.length_cons, List.length_append]
          simp
          omega
    · intro kvs hne hv hn
      match kvs with
      | [] => exact absurd rfl hne
      | (k, v) :: tl =>
        have hsv : Simple v := hv (k, v) (by simp)
        have hjv : 1 ≤ jsize v := jsize_pos v
        have hjf : jsizeFields ((k, v) :: tl) = 1 + jsize v + jsizeFields tl := by
          simp [jsizeFields]
        rw [hjf] at hn
        have hp := (ih (n - 1) (by omega)).1 v hsv (by omega)
        have hstr := strChars_length_ge k
        match tl with
        | [] =>
          rw [objInner_single, hjf]
          have hzero : jsizeFields ([] : List (String × JValue)) = 0 := by
            simp [jsizeFields]
          rw [hzero]
          simp only [fieldChars, List.length_append, List.length_cons, List.length_nil]
          omega
        | kv2 :: tl2 =>
          have hjf2 : 1 ≤ jsizeFields (kv2 :: tl2) := by
            obtain ⟨k2, v2⟩ := kv2
            have := jsize_pos v2
            simp [jsizeFields]
            omega
          have hq := (ih (n - 1) (by omega)).2 (kv2 :: tl2) (by simp)
            (fun kv h => hv kv (by simp [h])) (by omega)
          rw [objInner_cons, hjf]
          simp only [fieldChars, List.length_append, List.length_cons, List.length_nil]
          omega

/-- Reading back the rendering of a value of the claim universe. -/
theorem loads_dumps (v : JValue) (hs : Simple v) : loads (dumps v) = some v := by
  unfold loads dumps
  have hdata : (String.mk (dumpsChars v)).data = dumpsChars v := rfl
  rw [hdata]
  have hfuel : jsize v ≤ (dumpsChars v).length + 1 := by
    have := (jsize_le_dumps (jsize v)).1 v hs (le_refl _)
    omega
  have := (parse_dumps ((dumpsChars v).length + 1)).1 v [] hs hfuel numSafe_nil
  rw [List.append_nil] at this
  rw [this]
  simp [skipWs]

/-- C7: a value that is an integer, boolean or nested object (with
printable-ASCII keys) survives the JSON-encode / opportunistic-decode
round trip of a single-valued query parameter; a string that is not valid
JSON is passed through unchanged. -/
theorem parse_multi_dict_roundtrip :
    (∀ (k : String) (v : JValue), Simple v →
        parse_multi_dict [(k, [dumps v])] = [(k, v)])
      ∧ (∀ (k s : String), loads s = none →
        parse_multi_dict [(k, [s])] = [(k, .str s)]) := by
  constructor
  · intro k v hs
    simp [parse_multi_dict, loads_dumps v hs]
  · intro k s hnone
    simp [parse_multi_dict, hnone]

/-- C7 witness. -/
theorem parse_multi_dict_roundtrip_witness :
    parse_multi_dict [("q", [dumps (JValue.obj [("a", .int 5), ("b", .bool true)])])]
        = [("q", JValue.obj [("a", .int 5), ("b", .bool true)])]
      ∧ parse_multi_dict [("s", ["hello"])] = [("s", .str "hello")] := by
  have hs : Simple (JValue.obj [("a", .int 5), ("b", .bool true)]) := by
    refine Simple.obj _ ?_ ?_
    · intro kv hkv
      simp at hkv
      rcases hkv with rfl | rfl <;>
        (intro c hc; simp at hc; subst hc; exact ⟨by decide, by decide⟩)
    · intro kv hkv
      simp at hkv
      rcases hkv with rfl | rfl
      · exact Simple.int 5
      · exact Simple.bool true
  exact ⟨parse_multi_dict_roundtrip.1 "q" _ hs,
    parse_multi_dict_roundtrip.2 "s" "hello" (by rfl)⟩
